import Mathlib

/-!
A verification development for the DSE scripture app's offline content cache
and download-synchronization subsystem.

The JavaScript sources are shallowly embedded:

* `cache.js` (V2 folder): the IndexedDB-backed content store is modelled as an
  association list from string keys to stored values; the single read-write
  transaction of `saveBookChaptersInBatch` is modelled as an all-or-nothing
  state transformation (IndexedDB aborts a transaction as a whole on error),
  with the transaction outcome supplied by the environment.
* `api.js` / `ui.js`: the paginated fetch loops are modelled as fuel-indexed
  recursions over an abstract page gateway; the cooperative cancellation
  callback is a function of the number of pages requested so far.
* `download.js` (V2 folder) and the older download workflow embedded at the
  end of `api.js` (V1): modelled as sequential state-transition functions over
  an environment that supplies per-book fetch outcomes, transaction outcomes
  and the polled cancellation requests.  JavaScript's event loop is
  single-threaded, so the bounded-concurrency batches (`Promise.all` over 3
  books) are sequentialized; batch boundaries keep their own cancellation
  polls exactly as in the source.

JavaScript objects carry optional fields; a field that may be absent is
modelled as an `Option`, and object spread (`{...existing, ...v}`) as a
right-biased per-field choice.
-/

namespace DSE

/-- Right-biased field overlay: the semantics of an object-spread field,
`{...existing, ...v}` keeps `v`'s field when present, else `existing`'s. -/
def ovr {α : Type} (new old : Option α) : Option α :=
  match new with
  | some x => some x
  | none => old

@[simp] theorem ovr_some {α : Type} (x : α) (old : Option α) : ovr (some x) old = some x := rfl

@[simp] theorem ovr_none {α : Type} (old : Option α) : ovr none old = old := rfl

/-- A verse object as stored in a ChapterRecord and as delivered by the
gateway's `verses` payload (`verse_num`, `chapter_num`, and the optional
`verse_display_num`, `verse_text`, `commentary_text` fields). -/
structure VerseEntry where
  verse_num : Nat
  chapter_num : Nat
  verse_display_num : Option String
  verse_text : Option String
  commentary_text : Option String
deriving DecidableEq

/-- A commentary row as delivered by the gateway's `commentaries` payload
(`chapter_num`, `verse_num`, `commentary_text`). -/
structure CommentaryEntry where
  verse_num : Nat
  chapter_num : Nat
  commentary_text : Option String
deriving DecidableEq

/-- The `{verses, commentaries}` argument of `saveBookChaptersInBatch`;
`none` models a missing (`undefined`) property. -/
structure BatchPayload where
  verses : Option (List VerseEntry)
  commentaries : Option (List CommentaryEntry)
deriving DecidableEq

/-- A value of the single IndexedDB object store: a chapter record
`{data, isDownloaded}`, a core dataset array, or an audio-URL string. -/
inductive StoredValue where
  | chapterRec (data : List VerseEntry) (isDownloaded : Bool)
  | core (records : List String)
  | audio (url : String)
deriving DecidableEq

/-! ### Generic association lists

Both the IndexedDB object store (string keys) and the JavaScript `Map` used
inside `saveBookChaptersInBatch` (verse-number keys) are modelled as
association lists with at most one entry per key, kept in insertion order
(`Map.set` and IndexedDB `put` overwrite in place). -/

section AList

variable {K V : Type} [DecidableEq K]

/-- Lookup by key (`Map.get` / `store.get`). -/
def alistGet (m : List (K × V)) (k : K) : Option V :=
  (m.find? (fun e => e.1 = k)).map Prod.snd

/-- Insert-or-overwrite (`Map.set` / `store.put`): overwrite in place when
the key exists, else append. -/
def alistPut (m : List (K × V)) (k : K) (v : V) : List (K × V) :=
  if m.any (fun e => e.1 = k) then
    m.map (fun e => if e.1 = k then (k, v) else e)
  else
    m ++ [(k, v)]

theorem alist_find?_replace_same (m : List (K × V)) (k : K) (v : V)
    (h : m.any (fun e => e.1 = k)) :
    (m.map (fun e => if e.1 = k then (k, v) else e)).find? (fun e => decide (e.1 = k))
      = some (k, v) := by
  induction m with
  | nil => cases h
  | cons a t ih =>
    by_cases ha : a.1 = k
    · simp [List.find?, ha]
    · have ht : t.any (fun e => e.1 = k) := by
        simp only [List.any_cons] at h
        rcases Bool.or_eq_true_iff.mp h with h1 | h1
        · exact absurd (of_decide_eq_true h1) ha
        · exact h1
      simp only [List.map_cons, if_neg ha, List.find?_cons]
      rw [decide_eq_false ha]
      exact ih ht

theorem alist_find?_replace_other (m : List (K × V)) (k k' : K) (v : V) (hne : k' ≠ k) :
    (m.map (fun e => if e.1 = k then (k, v) else e)).find? (fun e => decide (e.1 = k'))
      = m.find? (fun e => decide (e.1 = k')) := by
  induction m with
  | nil => rfl
  | cons a t ih =>
    by_cases ha : a.1 = k
    · have h1 : ¬ ((k, v).1 = k') := fun hc => hne hc.symm
      have h2 : ¬ (a.1 = k') := fun hc => hne (ha ▸ hc : k = k').symm
      simp only [List.map_cons, if_pos ha, List.find?_cons]
      rw [decide_eq_false h1, decide_eq_false h2]
      exact ih
    · simp only [List.map_cons, if_neg ha, List.find?_cons]
      by_cases ha' : a.1 = k'
      · simp [ha']
      · rw [decide_eq_false ha']
        exact ih

theorem alist_find?_none_of_not_any (m : List (K × V)) (k : K)
    (h : ¬ m.any (fun e => e.1 = k)) :
    m.find? (fun e => decide (e.1 = k)) = none := by
  rw [List.find?_eq_none]
  intro x hx hk
  exact h (List.any_eq_true.mpr ⟨x, hx, hk⟩)

theorem alistGet_put_same (m : List (K × V)) (k : K) (v : V) :
    alistGet (alistPut m k v) k = some v := by
  unfold alistGet alistPut
  by_cases h : m.any (fun e => e.1 = k)
  · simp [h, alist_find?_replace_same m k v h]
  · simp only [h, if_false, Bool.false_eq_true, List.find?_append,
      alist_find?_none_of_not_any m k h]
    simp [List.find?]

theorem alistGet_put_other (m : List (K × V)) (k k' : K) (v : V) (hne : k' ≠ k) :
    alistGet (alistPut m k v) k' = alistGet m k' := by
  unfold alistGet alistPut
  by_cases h : m.any (fun e => e.1 = k)
  · simp [h, alist_find?_replace_other m k k' v hne]
  · simp only [h, if_false, Bool.false_eq_true, List.find?_append]
    have : List.find? (fun e => decide (e.1 = k')) [(k, v)] = none := by
      have hkk : ¬ ((k, v).1 = k') := fun hc => hne hc.symm
      simp [List.find?, hkk]
    rw [this]
    cases hf : m.find? (fun e => decide (e.1 = k')) <;> rfl

/-- Keys after an insert: unchanged on overwrite, appended on a fresh key. -/
theorem alistPut_keys (m : List (K × V)) (k : K) (v : V) :
    (alistPut m k v).map Prod.fst
      = if m.any (fun e => e.1 = k) then m.map Prod.fst else m.map Prod.fst ++ [k] := by
  unfold alistPut
  by_cases h : m.any (fun e => e.1 = k)
  · simp only [h, if_true, List.map_map]
    apply List.map_congr_left
    intro e _
    by_cases he : e.1 = k
    · simp [Function.comp, he]
    · simp [Function.comp, he]
  · simp [h]

theorem alistPut_wf (m : List (K × V)) (k : K) (v : V)
    (h : (m.map Prod.fst).Nodup) : ((alistPut m k v).map Prod.fst).Nodup := by
  rw [alistPut_keys]
  by_cases hany : m.any (fun e => e.1 = k)
  · simp [hany, h]
  · have hk : k ∉ m.map Prod.fst := by
      intro hmem
      rcases List.mem_map.mp hmem with ⟨e, he, hek⟩
      exact hany (List.any_eq_true.mpr ⟨e, he, by simpa using hek⟩)
    simp [hany, List.nodup_append, h, hk]

/-- Overwriting a key with the value it already holds is a no-op (one entry
per key). -/
theorem alistPut_self (m : List (K × V)) (k : K) (v : V)
    (hwf : (m.map Prod.fst).Nodup) (hget : alistGet m k = some v) :
    alistPut m k v = m := by
  unfold alistGet at hget
  rcases hfind : m.find? (fun e => e.1 = k) with _ | e
  · rw [hfind] at hget
    cases hget
  · rw [hfind] at hget
    have hek0 := List.find?_some hfind
    have hek : e.1 = k := by simpa using hek0
    have hev : e.2 = v := by simpa using hget
    have hmem : e ∈ m := List.mem_of_find?_eq_some hfind
    have hany : m.any (fun x => x.1 = k) := List.any_eq_true.mpr ⟨e, hmem, by simpa using hek⟩
    unfold alistPut
    rw [if_pos hany]
    have hcong : ∀ x ∈ m, (if x.1 = k then (k, v) else x) = x := by
      intro x hx
      by_cases hxk : x.1 = k
      · have hxe : x = e :=
          List.inj_on_of_nodup_map hwf hx hmem (by simp [hxk, hek])
      /- the matching entry is exactly (k, v) -/
        simp only [hxk, if_true]
        rw [hxe, ← hek, ← hev]
      · simp [hxk]
    rw [List.map_congr_left hcong]
    simp

end AList

/-- The IndexedDB object store: an association list with (at most) one entry
per key, in insertion order. -/
abbrev Store : Type := List (String × StoredValue)

/-- Well-formedness: one entry per key, as IndexedDB guarantees. -/
def Store.WF (s : Store) : Prop := (s.map Prod.fst).Nodup

instance (s : Store) : Decidable s.WF := by unfold Store.WF; infer_instance

/-- `store.get(key)` -/
def storeGet (s : Store) (k : String) : Option StoredValue := alistGet s k

/-- `store.put(v, key)` -/
def storePut (s : Store) (k : String) (v : StoredValue) : Store := alistPut s k v

/-- `store.delete(key)` -/
def storeDelete (s : Store) (k : String) : Store :=
  s.filter (fun e => ¬ e.1 = k)

@[simp] theorem storeGet_nil (k : String) : storeGet [] k = none := rfl

theorem storeGet_put_same (s : Store) (k : String) (v : StoredValue) :
    storeGet (storePut s k v) k = some v := alistGet_put_same s k v

theorem storeGet_put_other (s : Store) (k k' : String) (v : StoredValue) (hne : k' ≠ k) :
    storeGet (storePut s k v) k' = storeGet s k' := alistGet_put_other s k k' v hne

/-! ### The verse-number-keyed merge of `saveBookChaptersInBatch`

`cache.js` merges a chapter's existing stored entries with the new `verses`
and `commentaries` rows through a `Map` keyed by `verse_num`. -/

/-- The verse-number-keyed `Map` built inside `saveBookChaptersInBatch`. -/
abbrev VMap : Type := List (Nat × VerseEntry)

/-- Reading a field of `chapterDataMap.get(n) || \x7b\x7d`: absent object,
absent field. -/
def exField (ex : Option VerseEntry) (f : VerseEntry → Option String) : Option String :=
  match ex with
  | none => none
  | some e => f e

/-- `{ ...existing, ...v, chapter_num: chapterNum, verse_num: v.verse_num }`:
the verse-row overlay, right-biased per field. -/
def spreadVerse (ex : Option VerseEntry) (v : VerseEntry) (ch : Nat) : VerseEntry :=
  { verse_num := v.verse_num
    chapter_num := ch
    verse_display_num := ovr v.verse_display_num (exField ex (fun e => e.verse_display_num))
    verse_text := ovr v.verse_text (exField ex (fun e => e.verse_text))
    commentary_text := ovr v.commentary_text (exField ex (fun e => e.commentary_text)) }

/-- `{ ...existing, commentary_text: c.commentary_text, chapter_num: chapterNum,
verse_num: c.verse_num }`: the commentary-row overlay; it always writes
`commentary_text` and keeps the other fields. -/
def applyCommentary (ex : Option VerseEntry) (c : CommentaryEntry) (ch : Nat) : VerseEntry :=
  { verse_num := c.verse_num
    chapter_num := ch
    verse_display_num := exField ex (fun e => e.verse_display_num)
    verse_text := exField ex (fun e => e.verse_text)
    commentary_text := c.commentary_text }

/-- `existingEntry.data.forEach(v => chapterDataMap.set(v.verse_num, v))`. -/
def seedMap (data : List VerseEntry) : VMap :=
  data.foldl (fun m v => alistPut m v.verse_num v) []

/-- Step 2 of the merge: overlay the new verse rows of this chapter. -/
def applyVerses (vs : List VerseEntry) (ch : Nat) (m : VMap) : VMap :=
  (vs.filter (fun v => v.chapter_num = ch)).foldl
    (fun m v => alistPut m v.verse_num (spreadVerse (alistGet m v.verse_num) v ch)) m

/-- Step 3 of the merge: overlay the new commentary rows of this chapter. -/
def applyCommentaries (cs : List CommentaryEntry) (ch : Nat) (m : VMap) : VMap :=
  (cs.filter (fun c => c.chapter_num = ch)).foldl
    (fun m c => alistPut m c.verse_num (applyCommentary (alistGet m c.verse_num) c ch)) m

/-- Step 4: `Array.from(chapterDataMap.values()).sort((a,b) => a.verse_num - b.verse_num)`
(JavaScript `sort` is stable; `insertionSort` is a stable sort). -/
def mergeChapter (existingData : List VerseEntry) (vs : List VerseEntry)
    (cs : List CommentaryEntry) (ch : Nat) : List VerseEntry :=
  let m := applyCommentaries cs ch (applyVerses vs ch (seedMap existingData))
  (m.map Prod.snd).insertionSort (fun a b => a.verse_num ≤ b.verse_num)

/-! ### Characterizing the merge per verse number -/

/-- The map seed keeps, per verse number, the last entry of the stored data
(`Map.set` overwrites). -/
def lastWith (d : List VerseEntry) (n : Nat) : Option VerseEntry :=
  (d.filter (fun v => v.verse_num = n)).getLast?

/-- The verse rows of the payload that hit chapter `ch`, verse `n`, in order. -/
def vRowsAt (vs : List VerseEntry) (ch n : Nat) : List VerseEntry :=
  (vs.filter (fun v => v.chapter_num = ch)).filter (fun v => v.verse_num = n)

/-- The commentary rows of the payload that hit chapter `ch`, verse `n`. -/
def cRowsAt (cs : List CommentaryEntry) (ch n : Nat) : List CommentaryEntry :=
  (cs.filter (fun c => c.chapter_num = ch)).filter (fun c => c.verse_num = n)

/-- Folding the verse-row overlay over one verse number's rows. -/
def applyVsOpt (e : Option VerseEntry) (rows : List VerseEntry) (ch : Nat) : Option VerseEntry :=
  rows.foldl (fun acc v => some (spreadVerse acc v ch)) e

/-- Folding the commentary-row overlay over one verse number's rows. -/
def applyCsOpt (e : Option VerseEntry) (rows : List CommentaryEntry) (ch : Nat) :
    Option VerseEntry :=
  rows.foldl (fun acc c => some (applyCommentary acc c ch)) e

/-- The merged entry of verse `n`, computed directly from the existing data
and the payload rows for `(ch, n)`. -/
def mergedAt (d : List VerseEntry) (vs : List VerseEntry) (cs : List CommentaryEntry)
    (ch n : Nat) : Option VerseEntry :=
  applyCsOpt (applyVsOpt (lastWith d n) (vRowsAt vs ch n) ch) (cRowsAt cs ch n) ch

/-- Entry of a chapter record at a verse number. -/
def entryFor (l : List VerseEntry) (n : Nat) : Option VerseEntry :=
  l.find? (fun e => e.verse_num = n)

theorem ovr_assoc {A : Type} (a b c : Option A) : ovr (ovr a b) c = ovr a (ovr b c) := by
  cases a <;> cases b <;> rfl

theorem ovr_none_right {A : Type} (a : Option A) : ovr a none = a := by
  cases a <;> rfl

theorem ovr_idem {A : Type} (a b : Option A) : ovr a (ovr a b) = ovr a b := by
  cases a <;> rfl

theorem getLast?_cons {A : Type} (a : A) (l : List A) :
    (a :: l).getLast? = ovr l.getLast? (some a) := by
  induction l generalizing a with
  | nil => rfl
  | cons b t ih =>
    rw [List.getLast?_cons_cons, ih b]
    cases ht : t.getLast? <;> rfl

theorem lastWith_cons (v : VerseEntry) (d : List VerseEntry) (n : Nat) :
    lastWith (v :: d) n
      = if v.verse_num = n then ovr (lastWith d n) (some v) else lastWith d n := by
  unfold lastWith
  by_cases hv : v.verse_num = n
  · have hf : List.filter (fun x => decide (x.verse_num = n)) (v :: d)
        = v :: List.filter (fun x => decide (x.verse_num = n)) d := by simp [hv]
    rw [hf, if_pos hv]
    exact getLast?_cons v _
  · have hf : List.filter (fun x => decide (x.verse_num = n)) (v :: d)
        = List.filter (fun x => decide (x.verse_num = n)) d := by simp [hv]
    rw [hf, if_neg hv]

theorem alistGet_seed_fold (d : List VerseEntry) (m : VMap) (n : Nat) :
    alistGet (d.foldl (fun m v => alistPut m v.verse_num v) m) n
      = ovr (lastWith d n) (alistGet m n) := by
  induction d generalizing m with
  | nil => rfl
  | cons v rest ih =>
    rw [List.foldl_cons, ih, lastWith_cons]
    by_cases hv : v.verse_num = n
    · rw [if_pos hv, hv, alistGet_put_same, ovr_assoc, ovr_some]
    · rw [if_neg hv, alistGet_put_other _ _ _ _ (fun hc => hv hc.symm)]

theorem alistGet_seedMap (d : List VerseEntry) (n : Nat) :
    alistGet (seedMap d) n = lastWith d n := by
  unfold seedMap
  rw [alistGet_seed_fold]
  exact ovr_none_right _

theorem alistGet_applyVerses_fold (l : List VerseEntry) (ch : Nat) (m : VMap) (n : Nat) :
    alistGet (l.foldl
        (fun m v => alistPut m v.verse_num (spreadVerse (alistGet m v.verse_num) v ch)) m) n
      = applyVsOpt (alistGet m n) (l.filter (fun v => v.verse_num = n)) ch := by
  induction l generalizing m with
  | nil => rfl
  | cons v rest ih =>
    rw [List.foldl_cons, ih]
    by_cases hv : v.verse_num = n
    · subst hv
      rw [alistGet_put_same]
      have hf : List.filter (fun x => decide (x.verse_num = v.verse_num)) (v :: rest)
          = v :: List.filter (fun x => decide (x.verse_num = v.verse_num)) rest := by simp
      rw [hf]
      rfl
    · rw [alistGet_put_other _ _ _ _ (fun hc => hv hc.symm)]
      have hf : List.filter (fun x => decide (x.verse_num = n)) (v :: rest)
          = List.filter (fun x => decide (x.verse_num = n)) rest := by simp [hv]
      rw [hf]

theorem alistGet_applyVerses (vs : List VerseEntry) (ch : Nat) (m : VMap) (n : Nat) :
    alistGet (applyVerses vs ch m) n = applyVsOpt (alistGet m n) (vRowsAt vs ch n) ch := by
  unfold applyVerses vRowsAt
  exact alistGet_applyVerses_fold _ ch m n

theorem alistGet_applyCommentaries_fold (l : List CommentaryEntry) (ch : Nat) (m : VMap)
    (n : Nat) :
    alistGet (l.foldl
        (fun m c => alistPut m c.verse_num (applyCommentary (alistGet m c.verse_num) c ch)) m) n
      = applyCsOpt (alistGet m n) (l.filter (fun c => c.verse_num = n)) ch := by
  induction l generalizing m with
  | nil => rfl
  | cons c rest ih =>
    rw [List.foldl_cons, ih]
    by_cases hc : c.verse_num = n
    · subst hc
      rw [alistGet_put_same]
      have hf : List.filter (fun x => decide (x.verse_num = c.verse_num)) (c :: rest)
          = c :: List.filter (fun x => decide (x.verse_num = c.verse_num)) rest := by simp
      rw [hf]
      rfl
    · rw [alistGet_put_other _ _ _ _ (fun h => hc h.symm)]
      have hf : List.filter (fun x => decide (x.verse_num = n)) (c :: rest)
          = List.filter (fun x => decide (x.verse_num = n)) rest := by simp [hc]
      rw [hf]

theorem alistGet_applyCommentaries (cs : List CommentaryEntry) (ch : Nat) (m : VMap)
    (n : Nat) :
    alistGet (applyCommentaries cs ch m) n
      = applyCsOpt (alistGet m n) (cRowsAt cs ch n) ch := by
  unfold applyCommentaries cRowsAt
  exact alistGet_applyCommentaries_fold _ ch m n

/-- The merge map of `saveBookChaptersInBatch` for one chapter. -/
def mergeMap (d : List VerseEntry) (vs : List VerseEntry) (cs : List CommentaryEntry)
    (ch : Nat) : VMap :=
  applyCommentaries cs ch (applyVerses vs ch (seedMap d))

theorem alistGet_mergeMap (d : List VerseEntry) (vs : List VerseEntry)
    (cs : List CommentaryEntry) (ch n : Nat) :
    alistGet (mergeMap d vs cs ch) n = mergedAt d vs cs ch n := by
  unfold mergeMap mergedAt
  rw [alistGet_applyCommentaries, alistGet_applyVerses, alistGet_seedMap]

theorem alistPut_mem {K V : Type} [DecidableEq K] (m : List (K × V)) (k : K) (v : V)
    (p : K × V) (hp : p ∈ alistPut m k v) : p = (k, v) ∨ p ∈ m := by
  unfold alistPut at hp
  by_cases h : m.any (fun e => e.1 = k)
  · rw [if_pos h] at hp
    rcases List.mem_map.mp hp with ⟨q, hq, hqp⟩
    by_cases hqk : q.1 = k
    · rw [if_pos hqk] at hqp
      exact Or.inl hqp.symm
    · rw [if_neg hqk] at hqp
      exact Or.inr (hqp ▸ hq)
  · rw [if_neg h] at hp
    rcases List.mem_append.mp hp with hq | hq
    · exact Or.inr hq
    · exact Or.inl (List.mem_singleton.mp hq)

/-- `Map` invariant: every entry's value carries its key as its `verse_num`. -/
def VMap.Coherent (m : VMap) : Prop := ∀ p ∈ m, (Prod.snd p).verse_num = p.1

/-- `Map` invariant: one entry per verse number. -/
def VMap.WF (m : VMap) : Prop := (m.map Prod.fst).Nodup

theorem seedMap_invariants (d : List VerseEntry) :
    VMap.WF (seedMap d) ∧ VMap.Coherent (seedMap d) := by
  unfold seedMap
  suffices h : ∀ m : VMap, VMap.WF m → VMap.Coherent m →
      VMap.WF (d.foldl (fun m v => alistPut m v.verse_num v) m)
        ∧ VMap.Coherent (d.foldl (fun m v => alistPut m v.verse_num v) m) by
    exact h [] List.nodup_nil (fun p hp => absurd hp (List.not_mem_nil p))
  induction d with
  | nil => exact fun m hw hc => ⟨hw, hc⟩
  | cons v rest ih =>
    intro m hw hc
    refine ih _ (alistPut_wf m v.verse_num v hw) ?_
    intro p hp
    rcases alistPut_mem m v.verse_num v p hp with hpe | hpm
    · rw [hpe]
    · exact hc p hpm

theorem applyVerses_invariants (vs : List VerseEntry) (ch : Nat) (m : VMap)
    (hw : VMap.WF m) (hc : VMap.Coherent m) :
    VMap.WF (applyVerses vs ch m) ∧ VMap.Coherent (applyVerses vs ch m) := by
  unfold applyVerses
  induction vs.filter (fun v => v.chapter_num = ch) generalizing m with
  | nil => exact ⟨hw, hc⟩
  | cons v rest ih =>
    rw [List.foldl_cons]
    refine ih _ (alistPut_wf _ _ _ hw) ?_
    intro p hp
    rcases alistPut_mem _ _ _ p hp with hpe | hpm
    · rw [hpe]
      rfl
    · exact hc p hpm

theorem applyCommentaries_invariants (cs : List CommentaryEntry) (ch : Nat) (m : VMap)
    (hw : VMap.WF m) (hc : VMap.Coherent m) :
    VMap.WF (applyCommentaries cs ch m) ∧ VMap.Coherent (applyCommentaries cs ch m) := by
  unfold applyCommentaries
  induction cs.filter (fun c => c.chapter_num = ch) generalizing m with
  | nil => exact ⟨hw, hc⟩
  | cons c rest ih =>
    rw [List.foldl_cons]
    refine ih _ (alistPut_wf _ _ _ hw) ?_
    intro p hp
    rcases alistPut_mem _ _ _ p hp with hpe | hpm
    · rw [hpe]
      rfl
    · exact hc p hpm

theorem mergeMap_invariants (d : List VerseEntry) (vs : List VerseEntry)
    (cs : List CommentaryEntry) (ch : Nat) :
    VMap.WF (mergeMap d vs cs ch) ∧ VMap.Coherent (mergeMap d vs cs ch) := by
  unfold mergeMap
  obtain ⟨hw0, hc0⟩ := seedMap_invariants d
  obtain ⟨hw1, hc1⟩ := applyVerses_invariants vs ch _ hw0 hc0
  exact applyCommentaries_invariants cs ch _ hw1 hc1

theorem find?_map_snd (m : VMap) (hc : VMap.Coherent m) (n : Nat) :
    (m.map Prod.snd).find? (fun e => e.verse_num = n) = alistGet m n := by
  unfold alistGet
  induction m with
  | nil => rfl
  | cons p rest ih =>
    have hpn : (Prod.snd p).verse_num = p.1 := hc p (List.mem_cons_self p rest)
    rw [List.map_cons, List.find?_cons, List.find?_cons]
    by_cases hk : p.1 = n
    · have : (Prod.snd p).verse_num = n := hpn.trans hk
      simp [this, hk]
    · have : ¬ ((Prod.snd p).verse_num = n) := fun hcn => hk (hpn.symm.trans hcn)
      rw [decide_eq_false this, decide_eq_false hk]
      exact ih (fun q hq => hc q (List.mem_cons_of_mem p hq))

theorem map_verse_num_snd (m : VMap) (hc : VMap.Coherent m) :
    (m.map Prod.snd).map (fun e => e.verse_num) = m.map Prod.fst := by
  rw [List.map_map]
  exact List.map_congr_left (fun p hp => hc p hp)

theorem entryFor_eq_of_perm (l l' : List VerseEntry) (hperm : l.Perm l')
    (hnd : (l.map (fun e => e.verse_num)).Nodup) (n : Nat) :
    entryFor l n = entryFor l' n := by
  unfold entryFor
  cases hf : l.find? (fun e => e.verse_num = n) with
  | some e =>
    have he : e ∈ l := List.mem_of_find?_eq_some hf
    have hpe : e.verse_num = n := by
      have := List.find?_some hf
      simpa using this
    cases hf' : l'.find? (fun e => e.verse_num = n) with
    | some e' =>
      have he' : e' ∈ l := hperm.mem_iff.mpr (List.mem_of_find?_eq_some hf')
      have hpe' : e'.verse_num = n := by
        have := List.find?_some hf'
        simpa using this
      have : e' = e :=
        List.inj_on_of_nodup_map hnd he' he (by rw [hpe', hpe])
      rw [this]
    | none =>
      exfalso
      have := List.find?_eq_none.mp hf' e (hperm.mem_iff.mp he)
      simp [hpe] at this
  | none =>
    cases hf' : l'.find? (fun e => e.verse_num = n) with
    | some e' =>
      exfalso
      have he' : e' ∈ l := hperm.mem_iff.mpr (List.mem_of_find?_eq_some hf')
      have hpe' : e'.verse_num = n := by
        have := List.find?_some hf'
        simpa using this
      have := List.find?_eq_none.mp hf e' he'
      simp [hpe'] at this
    | none => rfl

theorem mergeChapter_perm (d : List VerseEntry) (vs : List VerseEntry)
    (cs : List CommentaryEntry) (ch : Nat) :
    (mergeChapter d vs cs ch).Perm ((mergeMap d vs cs ch).map Prod.snd) := by
  unfold mergeChapter mergeMap
  exact List.perm_insertionSort _ _

theorem mergeChapter_keys_nodup (d : List VerseEntry) (vs : List VerseEntry)
    (cs : List CommentaryEntry) (ch : Nat) :
    ((mergeChapter d vs cs ch).map (fun e => e.verse_num)).Nodup := by
  have hperm := (mergeChapter_perm d vs cs ch).map (fun e => e.verse_num)
  rw [List.Perm.nodup_iff hperm]
  obtain ⟨hw, hc⟩ := mergeMap_invariants d vs cs ch
  rw [map_verse_num_snd _ hc]
  exact hw

theorem entryFor_mergeChapter (d : List VerseEntry) (vs : List VerseEntry)
    (cs : List CommentaryEntry) (ch n : Nat) :
    entryFor (mergeChapter d vs cs ch) n = mergedAt d vs cs ch n := by
  obtain ⟨hw, hc⟩ := mergeMap_invariants d vs cs ch
  rw [entryFor_eq_of_perm _ _ (mergeChapter_perm d vs cs ch)
    (mergeChapter_keys_nodup d vs cs ch) n]
  show ((mergeMap d vs cs ch).map Prod.snd).find? (fun e => e.verse_num = n)
      = mergedAt d vs cs ch n
  rw [find?_map_snd _ hc, alistGet_mergeMap]

theorem mergeChapter_sorted (d : List VerseEntry) (vs : List VerseEntry)
    (cs : List CommentaryEntry) (ch : Nat) :
    List.Pairwise (fun a b : VerseEntry => a.verse_num ≤ b.verse_num)
      (mergeChapter d vs cs ch) := by
  unfold mergeChapter
  haveI : IsTotal VerseEntry (fun a b => a.verse_num ≤ b.verse_num) :=
    ⟨fun a b => Nat.le_total a.verse_num b.verse_num⟩
  haveI : IsTrans VerseEntry (fun a b => a.verse_num ≤ b.verse_num) :=
    ⟨fun _ _ _ hab hbc => Nat.le_trans hab hbc⟩
  exact List.sorted_insertionSort _ ((mergeMap d vs cs ch).map Prod.snd)

theorem mergeChapter_pairwise_lt (d : List VerseEntry) (vs : List VerseEntry)
    (cs : List CommentaryEntry) (ch : Nat) :
    List.Pairwise (fun a b : VerseEntry => a.verse_num < b.verse_num)
      (mergeChapter d vs cs ch) := by
  have h1 := mergeChapter_sorted d vs cs ch
  have h2 : List.Pairwise (fun a b : VerseEntry => a.verse_num ≠ b.verse_num)
      (mergeChapter d vs cs ch) := List.pairwise_map.mp (mergeChapter_keys_nodup d vs cs ch)
  exact (h1.and h2).imp (fun hab => lt_of_le_of_ne hab.1 hab.2)

/-- Two chapter records that are strictly sorted by verse number and agree on
the entry of every verse number are equal. -/
theorem eq_of_entryFor (l₁ l₂ : List VerseEntry)
    (h1 : List.Pairwise (fun a b : VerseEntry => a.verse_num < b.verse_num) l₁)
    (h2 : List.Pairwise (fun a b : VerseEntry => a.verse_num < b.verse_num) l₂)
    (hfun : ∀ n, entryFor l₁ n = entryFor l₂ n) : l₁ = l₂ := by
  have hknd1 : (l₁.map (fun e => e.verse_num)).Nodup :=
    List.pairwise_map.mpr (h1.imp (fun hab => Nat.ne_of_lt hab))
  have hknd2 : (l₂.map (fun e => e.verse_num)).Nodup :=
    List.pairwise_map.mpr (h2.imp (fun hab => Nat.ne_of_lt hab))
  have hnd1 : l₁.Nodup := List.Nodup.of_map _ hknd1
  have hnd2 : l₂.Nodup := List.Nodup.of_map _ hknd2
  have hmem1 : ∀ e : VerseEntry, e ∈ l₁ → entryFor l₁ e.verse_num = some e := by
    intro e he
    unfold entryFor
    cases hf : l₁.find? (fun x => x.verse_num = e.verse_num) with
    | some x =>
      have hx : x ∈ l₁ := List.mem_of_find?_eq_some hf
      have hpx : x.verse_num = e.verse_num := by
        have := List.find?_some hf
        simpa using this
      rw [List.inj_on_of_nodup_map hknd1 hx he hpx]
    | none =>
      exfalso
      have := List.find?_eq_none.mp hf e he
      simp at this
  have hmem2 : ∀ e : VerseEntry, e ∈ l₂ → entryFor l₂ e.verse_num = some e := by
    intro e he
    unfold entryFor
    cases hf : l₂.find? (fun x => x.verse_num = e.verse_num) with
    | some x =>
      have hx : x ∈ l₂ := List.mem_of_find?_eq_some hf
      have hpx : x.verse_num = e.verse_num := by
        have := List.find?_some hf
        simpa using this
      rw [List.inj_on_of_nodup_map hknd2 hx he hpx]
    | none =>
      exfalso
      have := List.find?_eq_none.mp hf e he
      simp at this
  have hperm : l₁.Perm l₂ := by
    rw [List.perm_ext_iff_of_nodup hnd1 hnd2]
    intro e
    constructor
    · intro he
      have h := (hfun e.verse_num).symm.trans (hmem1 e he)
      exact List.mem_of_find?_eq_some h
    · intro he
      have h := (hfun e.verse_num).trans (hmem2 e he)
      exact List.mem_of_find?_eq_some h
  haveI : IsAntisymm VerseEntry (fun a b : VerseEntry => a.verse_num < b.verse_num) :=
    ⟨fun a b hab hba => absurd (Nat.lt_trans hab hba) (Nat.lt_irrefl _)⟩
  exact List.eq_of_perm_of_sorted hperm h1 h2

/-! ### Injectivity of the decimal chapter component of cache keys

Cache keys embed the chapter number via JavaScript number-to-string
conversion, modelled by `Nat.repr`.  Distinct chapters yield distinct keys;
we prove this by reading the decimal string back. -/

/-- Numeric value of a decimal digit character. -/
def digitVal (c : Char) : Nat :=
  if c = '1' then 1 else if c = '2' then 2 else if c = '3' then 3 else
  if c = '4' then 4 else if c = '5' then 5 else if c = '6' then 6 else
  if c = '7' then 7 else if c = '8' then 8 else if c = '9' then 9 else 0

theorem digitVal_digitChar (d : Nat) (h : d < 10) :
    digitVal (Nat.digitChar d) = d := by
  interval_cases d <;> rfl

/-- Value of a decimal digit string (most significant first). -/
def digitsVal (l : List Char) : Nat :=
  l.foldl (fun a c => 10 * a + digitVal c) 0

theorem digitsVal_append_singleton (l : List Char) (c : Char) :
    digitsVal (l ++ [c]) = 10 * digitsVal l + digitVal c := by
  unfold digitsVal
  rw [List.foldl_append]
  rfl

theorem toDigitsCore_eq_append (f n : Nat) (acc : List Char) :
    Nat.toDigitsCore 10 f n acc = Nat.toDigitsCore 10 f n [] ++ acc := by
  induction f generalizing n acc with
  | zero => simp [Nat.toDigitsCore]
  | succ f ih =>
    simp only [Nat.toDigitsCore]
    by_cases h : n / 10 = 0
    · simp [h]
    · simp only [h, if_false]
      rw [ih (n / 10) (Nat.digitChar (n % 10) :: acc),
        ih (n / 10) (Nat.digitChar (n % 10) :: [])]
      simp

theorem digitsVal_toDigitsCore (f n : Nat) (h : n < f) :
    digitsVal (Nat.toDigitsCore 10 f n []) = n := by
  induction f generalizing n with
  | zero => omega
  | succ f ih =>
    simp only [Nat.toDigitsCore]
    by_cases h0 : n / 10 = 0
    · have hn : n < 10 := by omega
      simp only [h0, if_true]
      have : digitsVal [Nat.digitChar (n % 10)] = digitVal (Nat.digitChar (n % 10)) := by
        unfold digitsVal
        simp [List.foldl]
      rw [this, digitVal_digitChar (n % 10) (by omega)]
      omega
    · simp only [h0, if_false]
      rw [toDigitsCore_eq_append, digitsVal_append_singleton,
        ih (n / 10) (by omega), digitVal_digitChar (n % 10) (by omega)]
      omega

theorem digitsVal_natRepr (n : Nat) : digitsVal (Nat.repr n).data = n :=
  digitsVal_toDigitsCore (n + 1) n (Nat.lt_succ_self n)

theorem natRepr_injective : Function.Injective Nat.repr := by
  intro m n h
  have := congrArg (fun s => digitsVal s.data) h
  simpa [digitsVal_natRepr] using this

/-- The chapter-record cache key, from `cache.js`:
`` `${bookId}-${chapterNum}-${language}` ``. -/
def chapterKey (bookId : String) (ch : Nat) (lang : String) : String :=
  bookId ++ "-" ++ Nat.repr ch ++ "-" ++ lang

theorem chapterKey_inj (bookId lang : String) (ch ch' : Nat)
    (h : chapterKey bookId ch lang = chapterKey bookId ch' lang) : ch = ch' := by
  unfold chapterKey at h
  have hd := congrArg String.data h
  simp only [String.data_append, List.append_assoc, List.singleton_append] at hd
  have h1 := List.append_cancel_left hd
  have h2 := (List.cons.injEq _ _ _ _).mp h1 |>.2
  have h3 := List.append_cancel_right h2
  exact natRepr_injective (String.ext h3)

/-! ### `saveBookChaptersInBatch` -/

/-- Save outcome taxonomy: the `"No data provided to save."` guard produces a
plain `Error`; a transaction abort carries the storage engine's error name
(e.g. `"QuotaExceededError"`). -/
inductive SaveError where
  | noData
  | tx (errName : String)
deriving DecidableEq

/-- `error.name` as consulted by the V1 download workflow. -/
def SaveError.name : SaveError → String
  | noData => "Error"
  | tx n => n

/-- The `{savedCount, error}` result of `saveBookChaptersInBatch`. -/
structure SaveResult where
  savedCount : Nat
  error : Option SaveError
deriving DecidableEq

/-- The guard
`(!verses || verses.length === 0) && (!commentaries || commentaries.length === 0)`. -/
def payloadEmpty (p : BatchPayload) : Bool :=
  (p.verses.getD []).isEmpty && (p.commentaries.getD []).isEmpty

/-- JavaScript `Set` insertion (keeps first-occurrence order). -/
def setInsert (l : List Nat) (x : Nat) : List Nat :=
  if x ∈ l then l else l ++ [x]

/-- The `chapters` set of `saveBookChaptersInBatch`: every distinct chapter
number mentioned by either payload list. -/
def chaptersOf (p : BatchPayload) : List Nat :=
  ((p.verses.getD []).map (fun v => v.chapter_num)
    ++ (p.commentaries.getD []).map (fun c => c.chapter_num)).foldl setInsert []

theorem setInsert_fold_nodup (l : List Nat) :
    ∀ acc : List Nat, acc.Nodup → (l.foldl setInsert acc).Nodup := by
  induction l with
  | nil => exact fun acc h => h
  | cons x rest ih =>
    intro acc hacc
    rw [List.foldl_cons]
    refine ih _ ?_
    unfold setInsert
    by_cases hx : x ∈ acc
    · rw [if_pos hx]
      exact hacc
    · rw [if_neg hx]
      simp [List.nodup_append, hacc, hx]

theorem mem_setInsert_fold (l : List Nat) :
    ∀ (acc : List Nat) (x : Nat), x ∈ l.foldl setInsert acc ↔ x ∈ acc ∨ x ∈ l := by
  induction l with
  | nil => simp
  | cons y rest ih =>
    intro acc x
    rw [List.foldl_cons, ih]
    unfold setInsert
    by_cases hy : y ∈ acc
    · rw [if_pos hy]
      constructor
      · rintro (h | h)
        · exact Or.inl h
        · exact Or.inr (List.mem_cons_of_mem y h)
      · rintro (h | h)
        · exact Or.inl h
        · rcases List.mem_cons.mp h with rfl | h
          · exact Or.inl hy
          · exact Or.inr h
    · rw [if_neg hy]
      constructor
      · rintro (h | h)
        · rcases List.mem_append.mp h with h | h
          · exact Or.inl h
          · have hx := List.mem_singleton.mp h
            subst hx
            exact Or.inr (List.mem_cons_self _ _)
        · exact Or.inr (List.mem_cons_of_mem y h)
      · rintro (h | h)
        · exact Or.inl (List.mem_append.mpr (Or.inl h))
        · rcases List.mem_cons.mp h with rfl | h
          · exact Or.inl (List.mem_append.mpr (Or.inr (List.mem_singleton.mpr rfl)))
          · exact Or.inr h

theorem chaptersOf_nodup (p : BatchPayload) : (chaptersOf p).Nodup :=
  setInsert_fold_nodup _ [] List.nodup_nil

theorem mem_chaptersOf (p : BatchPayload) (ch : Nat) :
    ch ∈ chaptersOf p ↔
      ch ∈ (p.verses.getD []).map (fun v => v.chapter_num)
        ∨ ch ∈ (p.commentaries.getD []).map (fun c => c.chapter_num) := by
  unfold chaptersOf
  rw [mem_setInsert_fold]
  simp

/-- `e.target.result || { data: [], isDownloaded: true }` followed by the
`Array.isArray(existingEntry.data)` check: only a chapter record at the key
contributes existing verse entries; an absent key, an audio string or a core
array seeds an empty map. -/
def existingDataAt (st : Store) (k : String) : List VerseEntry :=
  match storeGet st k with
  | some (StoredValue.chapterRec d _) => d
  | _ => []

/-- One iteration of the per-chapter loop: read-modify-write of one chapter
record (inside the shared transaction). -/
def saveStep (bookId lang : String) (vs : List VerseEntry) (cs : List CommentaryEntry)
    (st : Store) (ch : Nat) : Store :=
  let key := chapterKey bookId ch lang
  storePut st key
    (StoredValue.chapterRec (mergeChapter (existingDataAt st key) vs cs ch) true)

/-- `saveBookChaptersInBatch` from `cache.js`.  All puts belong to one
read-write transaction; `txErr = none` models `transaction.oncomplete`
(commit), `txErr = some name` models a transaction abort of that error name,
which rolls every put back (the catch path returns `{savedCount: 0, error}`). -/
def saveBookChaptersInBatch (bookId lang : String) (p : BatchPayload)
    (store : Store) (txErr : Option String) : Store × SaveResult :=
  if payloadEmpty p then (store, ⟨0, some SaveError.noData⟩)
  else
    match txErr with
    | some n => (store, ⟨0, some (SaveError.tx n)⟩)
    | none =>
      let vs := p.verses.getD []
      let cs := p.commentaries.getD []
      let chs := chaptersOf p
      (chs.foldl (saveStep bookId lang vs cs) store, ⟨chs.length, none⟩)

theorem chapterKey_ne (bookId lang : String) (ch ch' : Nat) (h : ch ≠ ch') :
    chapterKey bookId ch lang ≠ chapterKey bookId ch' lang :=
  fun hc => h (chapterKey_inj bookId lang ch ch' hc)

theorem existingDataAt_put_other (st : Store) (k k' : String) (v : StoredValue)
    (hne : k' ≠ k) : existingDataAt (storePut st k v) k' = existingDataAt st k' := by
  unfold existingDataAt
  rw [storeGet_put_other st k k' v hne]

/-- The per-chapter loop, characterized: every processed chapter ends up with
the merge of its pre-transaction record against the payload, and every other
key is untouched. -/
theorem saveFold_get (bookId lang : String) (vs : List VerseEntry)
    (cs : List CommentaryEntry) (chs : List Nat) (hnd : chs.Nodup) (st : Store) :
    (∀ ch ∈ chs,
      storeGet (chs.foldl (saveStep bookId lang vs cs) st) (chapterKey bookId ch lang)
        = some (StoredValue.chapterRec
            (mergeChapter (existingDataAt st (chapterKey bookId ch lang)) vs cs ch) true))
    ∧ (∀ k : String, (∀ ch ∈ chs, k ≠ chapterKey bookId ch lang) →
        storeGet (chs.foldl (saveStep bookId lang vs cs) st) k = storeGet st k) := by
  induction chs generalizing st with
  | nil => exact ⟨fun ch hch => absurd hch (List.not_mem_nil ch), fun k _ => rfl⟩
  | cons c rest ih =>
    obtain ⟨hc_rest, hnd_rest⟩ := List.nodup_cons.mp hnd
    obtain ⟨ih1, ih2⟩ := ih hnd_rest (saveStep bookId lang vs cs st c)
    constructor
    · intro ch hch
      rcases List.mem_cons.mp hch with rfl | hch
      · rw [List.foldl_cons]
        have hkeys : ∀ ch' ∈ rest, chapterKey bookId ch lang ≠ chapterKey bookId ch' lang := by
          intro ch' hch'
          exact chapterKey_ne bookId lang ch ch' (fun hcc => hc_rest (hcc ▸ hch'))
        rw [ih2 _ hkeys]
        unfold saveStep
        rw [storeGet_put_same]
      · rw [List.foldl_cons]
        rw [ih1 ch hch]
        have hne : chapterKey bookId ch lang ≠ chapterKey bookId c lang :=
          chapterKey_ne bookId lang ch c (fun hcc => hc_rest (hcc ▸ hch))
        unfold saveStep
        rw [existingDataAt_put_other st _ _ _ hne]
    · intro k hk
      rw [List.foldl_cons]
      rw [ih2 k (fun ch hch => hk ch (List.mem_cons_of_mem c hch))]
      unfold saveStep
      exact storeGet_put_other st _ k _ (hk c (List.mem_cons_self c rest))

/-- The per-chapter loop preserves store well-formedness. -/
theorem saveFold_wf (bookId lang : String) (vs : List VerseEntry)
    (cs : List CommentaryEntry) (chs : List Nat) (st : Store) (hwf : st.WF) :
    (chs.foldl (saveStep bookId lang vs cs) st).WF := by
  induction chs generalizing st with
  | nil => exact hwf
  | cons c rest ih =>
    rw [List.foldl_cons]
    exact ih _ (alistPut_wf _ _ _ hwf)


/-! ### Idempotence of the merge -/

@[simp] theorem exField_some (e : VerseEntry) (f : VerseEntry → Option String) :
    exField (some e) f = f e := rfl

@[simp] theorem exField_none (f : VerseEntry → Option String) :
    exField none f = none := rfl

@[simp] theorem applyVsOpt_nil (e : Option VerseEntry) (ch : Nat) :
    applyVsOpt e [] ch = e := rfl

@[simp] theorem applyVsOpt_cons (e : Option VerseEntry) (v : VerseEntry)
    (rows : List VerseEntry) (ch : Nat) :
    applyVsOpt e (v :: rows) ch = applyVsOpt (some (spreadVerse e v ch)) rows ch := rfl

@[simp] theorem applyCsOpt_nil (e : Option VerseEntry) (ch : Nat) :
    applyCsOpt e [] ch = e := rfl

@[simp] theorem applyCsOpt_cons (e : Option VerseEntry) (c : CommentaryEntry)
    (rows : List CommentaryEntry) (ch : Nat) :
    applyCsOpt e (c :: rows) ch = applyCsOpt (some (applyCommentary e c ch)) rows ch := rfl

/-- Folding right-biased overlays of one field over a row list. -/
def fieldFold (g : List (Option String)) (init : Option String) : Option String :=
  g.foldl (fun a o => ovr o a) init

theorem fieldFold_eq_ovr (g : List (Option String)) (i : Option String) :
    fieldFold g i = ovr (fieldFold g none) i := by
  induction g generalizing i with
  | nil => rfl
  | cons o rest ih =>
    show fieldFold rest (ovr o i) = ovr (fieldFold rest (ovr o none)) i
    rw [ih (ovr o i), ih (ovr o none), ovr_assoc]
    cases o <;> rfl

theorem fieldFold_idem (g : List (Option String)) (i : Option String) :
    fieldFold g (fieldFold g i) = fieldFold g i := by
  rw [fieldFold_eq_ovr g i, fieldFold_eq_ovr g (ovr (fieldFold g none) i), ovr_idem]

instance : Inhabited VerseEntry := ⟨⟨0, 0, none, none, none⟩⟩

/-- Shape of the verse-row overlay over a nonempty row list: the last row's
verse number, the given chapter, and a right-biased fold per field. -/
theorem applyVsOpt_ne_nil (e : Option VerseEntry) (rows : List VerseEntry) (ch : Nat)
    (h : rows ≠ []) :
    applyVsOpt e rows ch = some
      { verse_num := (rows.getLast h).verse_num
        chapter_num := ch
        verse_display_num :=
          fieldFold (rows.map (fun v => v.verse_display_num)) (exField e (fun x => x.verse_display_num))
        verse_text :=
          fieldFold (rows.map (fun v => v.verse_text)) (exField e (fun x => x.verse_text))
        commentary_text :=
          fieldFold (rows.map (fun v => v.commentary_text)) (exField e (fun x => x.commentary_text)) } := by
  induction rows generalizing e with
  | nil => exact absurd rfl h
  | cons v rest ih =>
    rw [applyVsOpt_cons]
    by_cases hr : rest = []
    · subst hr
      rfl
    · rw [ih (some (spreadVerse e v ch)) hr]
      rw [List.getLast_cons hr]
      rfl

/-- Shape of the commentary-row overlay over a nonempty row list: the last
row's verse number and commentary, other fields preserved. -/
theorem applyCsOpt_ne_nil (e : Option VerseEntry) (rows : List CommentaryEntry) (ch : Nat)
    (h : rows ≠ []) :
    applyCsOpt e rows ch = some
      { verse_num := (rows.getLast h).verse_num
        chapter_num := ch
        verse_display_num := exField e (fun x => x.verse_display_num)
        verse_text := exField e (fun x => x.verse_text)
        commentary_text := (rows.getLast h).commentary_text } := by
  induction rows generalizing e with
  | nil => exact absurd rfl h
  | cons c rest ih =>
    rw [applyCsOpt_cons]
    by_cases hr : rest = []
    · subst hr
      rfl
    · rw [ih (some (applyCommentary e c ch)) hr]
      rw [List.getLast_cons hr]
      rfl

/-- Re-applying the same per-verse payload rows is a no-op. -/
theorem applyOpt_idem (x : Option VerseEntry) (R : List VerseEntry)
    (C : List CommentaryEntry) (ch : Nat) :
    applyCsOpt (applyVsOpt (applyCsOpt (applyVsOpt x R ch) C ch) R ch) C ch
      = applyCsOpt (applyVsOpt x R ch) C ch := by
  by_cases hC : C = []
  · subst hC
    by_cases hR : R = []
    · subst hR
      rfl
    · show applyVsOpt (applyVsOpt x R ch) R ch = applyVsOpt x R ch
      rw [applyVsOpt_ne_nil x R ch hR, applyVsOpt_ne_nil _ R ch hR]
      simp [fieldFold_idem]
  · by_cases hR : R = []
    · subst hR
      show applyCsOpt (applyCsOpt x C ch) C ch = applyCsOpt x C ch
      rw [applyCsOpt_ne_nil x C ch hC, applyCsOpt_ne_nil _ C ch hC]
      simp
    · rw [applyVsOpt_ne_nil x R ch hR, applyCsOpt_ne_nil _ C ch hC,
        applyVsOpt_ne_nil _ R ch hR, applyCsOpt_ne_nil _ C ch hC]
      simp [fieldFold_idem]

theorem lastWith_eq_entryFor (l : List VerseEntry)
    (hnd : (l.map (fun e => e.verse_num)).Nodup) (n : Nat) :
    lastWith l n = entryFor l n := by
  induction l with
  | nil => rfl
  | cons a t ih =>
    rw [List.map_cons, List.nodup_cons] at hnd
    obtain ⟨ha, hnd_t⟩ := hnd
    rw [lastWith_cons]
    unfold entryFor
    rw [List.find?_cons]
    by_cases hp : a.verse_num = n
    · rw [if_pos hp, decide_eq_true hp]
      have ht : lastWith t n = none := by
        unfold lastWith
        have : t.filter (fun v => decide (v.verse_num = n)) = [] := by
          rw [List.filter_eq_nil_iff]
          intro x hx hxn
          have hx1 : x.verse_num = n := of_decide_eq_true hxn
          have hmem : a.verse_num ∈ List.map (fun e => e.verse_num) t := by
            rw [hp, ← hx1]
            exact List.mem_map_of_mem _ hx
          exact ha hmem
        rw [this]
        rfl
      rw [ht]
      rfl
    · rw [if_neg hp, decide_eq_false hp]
      exact ih hnd_t

theorem mergedAt_idem (d : List VerseEntry) (vs : List VerseEntry)
    (cs : List CommentaryEntry) (ch n : Nat) :
    mergedAt (mergeChapter d vs cs ch) vs cs ch n = mergedAt d vs cs ch n := by
  show applyCsOpt (applyVsOpt (lastWith (mergeChapter d vs cs ch) n) _ ch) _ ch
      = mergedAt d vs cs ch n
  rw [lastWith_eq_entryFor _ (mergeChapter_keys_nodup d vs cs ch) n,
    entryFor_mergeChapter d vs cs ch n]
  exact applyOpt_idem (lastWith d n) (vRowsAt vs ch n) (cRowsAt cs ch n) ch

/-- The chapter merge is idempotent on the stored record. -/
theorem mergeChapter_idem (d : List VerseEntry) (vs : List VerseEntry)
    (cs : List CommentaryEntry) (ch : Nat) :
    mergeChapter (mergeChapter d vs cs ch) vs cs ch = mergeChapter d vs cs ch := by
  apply eq_of_entryFor
  · exact mergeChapter_pairwise_lt _ vs cs ch
  · exact mergeChapter_pairwise_lt d vs cs ch
  · intro n
    rw [entryFor_mergeChapter, entryFor_mergeChapter, mergedAt_idem]

/-- Once every processed chapter already holds its merged record, re-running
the per-chapter loop changes nothing. -/
theorem saveFold_stable (bookId lang : String) (vs : List VerseEntry)
    (cs : List CommentaryEntry) (chs : List Nat) (st : Store) (hwf : st.WF)
    (hstable : ∀ ch ∈ chs,
      storeGet st (chapterKey bookId ch lang)
        = some (StoredValue.chapterRec
            (mergeChapter (existingDataAt st (chapterKey bookId ch lang)) vs cs ch) true)) :
    chs.foldl (saveStep bookId lang vs cs) st = st := by
  induction chs with
  | nil => rfl
  | cons c rest ih =>
    rw [List.foldl_cons]
    have hstep : saveStep bookId lang vs cs st c = st := by
      unfold saveStep
      exact alistPut_self st _ _ hwf (hstable c (List.mem_cons_self c rest))
    rw [hstep]
    exact ih (fun ch hch => hstable ch (List.mem_cons_of_mem c hch))

/-- A committed save, written out. -/
theorem save_commit (bookId lang : String) (p : BatchPayload) (store : Store)
    (hne : ¬ payloadEmpty p = true) :
    saveBookChaptersInBatch bookId lang p store none
      = ((chaptersOf p).foldl
          (saveStep bookId lang (p.verses.getD []) (p.commentaries.getD [])) store,
        ⟨(chaptersOf p).length, none⟩) := by
  unfold saveBookChaptersInBatch
  rw [if_neg hne]

/-- A rejected or aborted save leaves the store unchanged. -/
theorem save_fail (bookId lang : String) (p : BatchPayload) (store : Store)
    (txErr : Option String) :
    (saveBookChaptersInBatch bookId lang p store txErr).2.error ≠ none →
      (saveBookChaptersInBatch bookId lang p store txErr).1 = store := by
  unfold saveBookChaptersInBatch
  by_cases hguard : payloadEmpty p = true
  · rw [if_pos hguard]
    exact fun _ => rfl
  · rw [if_neg hguard]
    cases txErr with
    | none => exact fun h => absurd rfl h
    | some n => exact fun _ => rfl

/-- Saving the same payload twice leaves the identical store and result as
saving it once. -/
theorem saveBookChaptersInBatch_idem (bookId lang : String) (p : BatchPayload)
    (store : Store) (hwf : store.WF) :
    saveBookChaptersInBatch bookId lang p
        (saveBookChaptersInBatch bookId lang p store none).1 none
      = saveBookChaptersInBatch bookId lang p store none := by
  by_cases hguard : payloadEmpty p = true
  · unfold saveBookChaptersInBatch
    rw [if_pos hguard, if_pos hguard]
  · rw [save_commit bookId lang p store hguard]
    rw [save_commit bookId lang p _ hguard]
    have hwf1 := saveFold_wf bookId lang (p.verses.getD []) (p.commentaries.getD [])
      (chaptersOf p) store hwf
    have hst := (saveFold_get bookId lang (p.verses.getD []) (p.commentaries.getD [])
      (chaptersOf p) (chaptersOf_nodup p) store).1
    have hstable : ∀ ch ∈ chaptersOf p,
        storeGet ((chaptersOf p).foldl
            (saveStep bookId lang (p.verses.getD []) (p.commentaries.getD [])) store)
          (chapterKey bookId ch lang)
        = some (StoredValue.chapterRec
            (mergeChapter
              (existingDataAt
                ((chaptersOf p).foldl
                  (saveStep bookId lang (p.verses.getD []) (p.commentaries.getD [])) store)
                (chapterKey bookId ch lang))
              (p.verses.getD []) (p.commentaries.getD []) ch) true) := by
      intro ch hch
      have hg := hst ch hch
      have hex : existingDataAt
          ((chaptersOf p).foldl
            (saveStep bookId lang (p.verses.getD []) (p.commentaries.getD [])) store)
          (chapterKey bookId ch lang)
        = mergeChapter (existingDataAt store (chapterKey bookId ch lang))
            (p.verses.getD []) (p.commentaries.getD []) ch := by
        unfold existingDataAt
        rw [hg]
        rfl
      rw [hex, mergeChapter_idem]
      exact hg
    have hfix := saveFold_stable bookId lang (p.verses.getD []) (p.commentaries.getD [])
      (chaptersOf p) _ hwf1 hstable
    rw [hfix]

/-! ### `clearDownloadedDataForLanguage` -/

/-- The cursor sweep's per-entry deletion test:
`typeof key === 'string' && key.endsWith(`-lang`) && storedObject?.isDownloaded === true`.
Only a chapter record can satisfy `isDownloaded === true`: audio values are
strings and core datasets are arrays, so the optional chain yields
`undefined` for them. -/
def sweepMatch (lang : String) (k : String) (v : StoredValue) : Bool :=
  k.endsWith ("-" ++ lang) &&
    (match v with
     | StoredValue.chapterRec _ b => b
     | _ => false)

/-- `clearDownloadedDataForLanguage` from `cache.js`: one `store.delete` of
the `core-crossrefs_<lang>` key, then a cursor sweep over the remaining
entries deleting every match and counting only those deletions; returns
`{success: true, clearedCount}` (the storage-engine failure path, which
reports `success: false`, is outside the sweep's scope). -/
def clearDownloadedDataForLanguage (lang : String) (store : Store) :
    Store × Bool × Nat :=
  let s1 := storeDelete store ("core-crossrefs_" ++ lang)
  (s1.filter (fun e => ¬ sweepMatch lang e.1 e.2), true,
    s1.countP (fun e => sweepMatch lang e.1 e.2))

theorem mem_storeDelete (store : Store) (key : String) (e : String × StoredValue) :
    e ∈ storeDelete store key ↔ e ∈ store ∧ e.1 ≠ key := by
  unfold storeDelete
  rw [List.mem_filter]
  constructor
  · rintro ⟨h1, h2⟩
    exact ⟨h1, of_decide_eq_true h2⟩
  · rintro ⟨h1, h2⟩
    exact ⟨h1, decide_eq_true h2⟩

/-! ### The paginated fetch loops of `api.js` -/

/-- One gateway page response `{data, error}`; the error slot holds the
PostgREST error code (`PGRST116` means "no rows" and is not treated as a
failure by the loops). -/
structure PageResult (α : Type) where
  data : Option (List α)
  error : Option String
deriving DecidableEq

/-- The `{data, error}` a paginated fetch resolves with, plus the number of
page requests it issued. -/
structure FetchOutcome (α : Type) where
  data : Option (List α)
  error : Option String
  requests : Nat
deriving DecidableEq

/-- The fixed page size of the remote contract. -/
def pageSize : Nat := 1000

/-- The common pagination loop of `fetchAllVersesForBook` and
`fetchAllCrossRefs` (api.js): poll `onCancel`, request the next page, stop on
a non-`PGRST116` error, stop with the accumulation when the page is missing,
empty, or shorter than `pageSize`, else continue with the next offset.
`gw i` is the response to the page at offset `i * 1000`; `onCancel i` is the
cancellation flag polled at the top of iteration `i`.  The JavaScript `while`
loop is unbounded; `fuel` makes the recursion total and `none` means the
fuel ran out before the loop finished (every theorem supplies enough fuel,
so the modelled runs never hit it). -/
def fetchPages {α : Type} (gw : Nat → PageResult α) (onCancel : Nat → Bool)
    (cancelMsg : String) : Nat → Nat → List α → Option (FetchOutcome α)
  | 0, _, _ => none
  | fuel + 1, page, acc =>
    if onCancel page then some ⟨none, some cancelMsg, page⟩
    else
      let r := gw page
      if r.error.isSome && r.error ≠ some "PGRST116" then
        some ⟨none, r.error, page + 1⟩
      else
        match r.data with
        | none => some ⟨some acc, none, page + 1⟩
        | some rows =>
          if rows.isEmpty then some ⟨some acc, none, page + 1⟩
          else if rows.length < pageSize then some ⟨some (acc ++ rows), none, page + 1⟩
          else fetchPages gw onCancel cancelMsg fuel (page + 1) (acc ++ rows)

/-- `fetchAllVersesForBook` (api.js), over an abstract page gateway. -/
def fetchAllVersesForBook {α : Type} (gw : Nat → PageResult α) (onCancel : Nat → Bool)
    (fuel : Nat) : Option (FetchOutcome α) :=
  fetchPages gw onCancel "Cancelled during book fetch pagination" fuel 0 []

/-- `fetchAllCrossRefs` (api.js): identical loop; `onProgress` only reports
progress and does not influence the result or the number of requests. -/
def fetchAllCrossRefs {α : Type} (gw : Nat → PageResult α) (onCancel : Nat → Bool)
    (fuel : Nat) : Option (FetchOutcome α) :=
  fetchPages gw onCancel "Cancelled during cross-reference fetch" fuel 0 []

/-- A run over `k` full pages starting at `page`, then one short page:
exactly `k + 1` further requests, all rows concatenated in request order. -/
theorem fetchPages_run {α : Type} (gw : Nat → PageResult α) (onCancel : Nat → Bool)
    (cancelMsg : String) (rows : Nat → List α)
    (hc : ∀ i, onCancel i = false) :
    ∀ (k p fuel : Nat) (acc : List α),
      (∀ i, p ≤ i → i ≤ p + k → gw i = ⟨some (rows i), none⟩) →
      (∀ i, p ≤ i → i < p + k → (rows i).length = pageSize) →
      (rows (p + k)).length < pageSize →
      k + 1 ≤ fuel →
      fetchPages gw onCancel cancelMsg fuel p acc
        = some ⟨some (acc ++ ((List.range (k + 1)).map (fun j => rows (p + j))).flatten),
            none, p + k + 1⟩ := by
  intro k
  induction k with
  | zero =>
    intro p fuel acc hgw _ hlast hfuel
    obtain ⟨fuel, rfl⟩ : ∃ f, fuel = f + 1 := ⟨fuel - 1, by omega⟩
    unfold fetchPages
    rw [hc p, hgw p (Nat.le_refl p) (Nat.le_add_right p 0)]
    simp only [Bool.false_eq_true, if_false]
    by_cases hemp : (rows p).isEmpty
    · have hnil : rows p = [] := by
        cases hrp : rows p with
        | nil => rfl
        | cons a t =>
          rw [hrp] at hemp
          cases hemp
      have hr1 : List.range 1 = [0] := rfl
      simp [hnil, hr1]
    · have hlt : (rows p).length < pageSize := by
        have hpz : p + 0 = p := Nat.add_zero p
        rw [hpz] at hlast
        exact hlast
      have hr1 : List.range 1 = [0] := rfl
      simp [hemp, hlt, hr1]
  | succ k ih =>
    intro p fuel acc hgw hfull hlast hfuel
    obtain ⟨fuel, rfl⟩ : ∃ f, fuel = f + 1 := ⟨fuel - 1, by omega⟩
    unfold fetchPages
    rw [hc p, hgw p (Nat.le_refl p) (Nat.le_add_right p (k + 1))]
    simp only [Bool.false_eq_true, if_false]
    have hlenp : (rows p).length = pageSize :=
      hfull p (Nat.le_refl p) (by omega)
    have hnemp : ¬ (rows p).isEmpty := by
      cases hrp : rows p with
      | nil =>
        rw [hrp] at hlenp
        simp [pageSize] at hlenp
      | cons a t => simp
    have hnlt : ¬ ((rows p).length < pageSize) := by
      rw [hlenp]
      exact Nat.lt_irrefl pageSize
    simp only [hnemp, Bool.false_eq_true, if_false, hnlt, if_false]
    rw [ih (p + 1) fuel (acc ++ rows p)
      (fun i h1 h2 => hgw i (by omega) (by omega))
      (fun i h1 h2 => hfull i (by omega) (by omega))
      (by
        have hpk : p + 1 + k = p + (k + 1) := by omega
        rw [hpk]
        exact hlast)
      (by omega)]
    have harith : p + 1 + k + 1 = p + (k + 1) + 1 := by omega
    have hflat : rows p ++ ((List.range (k + 1)).map (fun j => rows (p + 1 + j))).flatten
        = ((List.range (k + 1 + 1)).map (fun j => rows (p + j))).flatten := by
      conv_rhs => rw [List.range_succ_eq_map, List.map_cons, List.flatten_cons, List.map_map]
      have h0 : rows p = rows (p + 0) := rfl
      rw [← h0]
      congr 1
      congr 1
      apply List.map_congr_left
      intro j _
      simp only [Function.comp]
      congr 1
      omega
    rw [harith, List.append_assoc, hflat]
    simp

/-- A run of `k` full pages then a poll that sees cancellation: the fetch
resolves `{data: null, error: cancelMsg}` having issued exactly `k` requests. -/
theorem fetchPages_cancel {α : Type} (gw : Nat → PageResult α) (onCancel : Nat → Bool)
    (cancelMsg : String) (rows : Nat → List α) :
    ∀ (k p fuel : Nat) (acc : List α),
      (∀ i, p ≤ i → i < p + k →
        onCancel i = false ∧ gw i = ⟨some (rows i), none⟩ ∧ (rows i).length = pageSize) →
      onCancel (p + k) = true →
      k + 1 ≤ fuel →
      fetchPages gw onCancel cancelMsg fuel p acc
        = some ⟨none, some cancelMsg, p + k⟩ := by
  intro k
  induction k with
  | zero =>
    intro p fuel acc _ hoc hfuel
    obtain ⟨fuel, rfl⟩ : ∃ f, fuel = f + 1 := ⟨fuel - 1, by omega⟩
    unfold fetchPages
    have hp0 : p + 0 = p := Nat.add_zero p
    rw [hp0] at hoc
    rw [hoc]
    simp
  | succ k ih =>
    intro p fuel acc hgood hoc hfuel
    obtain ⟨fuel, rfl⟩ : ∃ f, fuel = f + 1 := ⟨fuel - 1, by omega⟩
    obtain ⟨hocp, hgwp, hlenp⟩ := hgood p (Nat.le_refl p) (by omega)
    unfold fetchPages
    rw [hocp, hgwp]
    simp only [Bool.false_eq_true, if_false]
    have hnemp : ¬ (rows p).isEmpty := by
      cases hrp : rows p with
      | nil =>
        rw [hrp] at hlenp
        simp [pageSize] at hlenp
      | cons a t => simp
    have hnlt : ¬ ((rows p).length < pageSize) := by
      rw [hlenp]
      exact Nat.lt_irrefl pageSize
    simp only [hnemp, Bool.false_eq_true, if_false, hnlt]
    rw [ih (p + 1) fuel (acc ++ rows p)
      (fun i h1 h2 => hgood i (by omega) (by omega))
      (by
        have hpk : p + 1 + k = p + (k + 1) := by omega
        rw [hpk]
        exact hoc)
      (by omega)]
    have harith : p + 1 + k = p + (k + 1) := by omega
    rw [harith]
    simp

/-! ### The V2 download orchestrator (`V2/download.js`)

The run is driven by an environment supplying the gateway outcome of each
book fetch and cross-reference fetch, the IndexedDB transaction outcome of
each save, and the cancellation requests.  `req t` says whether `cancel()`
has newly been invoked by the time of the `t`-th poll of the run; the polled
flag is therefore monotone, exactly as the shared
`currentState.cancelDownloadFlag` is during a run.  The whole-book paginated
fetch is one suspension point at this level (its internal pagination and
cancellation behaviour is verified separately on `fetchPages`), and the
`Promise.all` batches of 3 books are sequentialized under JavaScript's
single-threaded event loop, keeping the per-batch and per-book polls of the
source. -/

structure Book where
  id : String
  chapters : Nat
  order : Int
deriving DecidableEq

/-- `Object.values(booksInfo).filter(b => b?.chapters > 0).sort((a,b) => a.order - b.order)` -/
def booksToDownload (booksInfo : List Book) : List Book :=
  (booksInfo.filter (fun b => 0 < b.chapters)).insertionSort (fun a b => a.order ≤ b.order)

/-- The bounded-concurrency batches (`CONCURRENCY_LIMIT = 3`). -/
def chunk3 {α : Type} : List α → List (List α)
  | [] => []
  | [a] => [[a]]
  | [a, b] => [[a, b]]
  | a :: b :: c :: rest => [a, b, c] :: chunk3 rest

theorem chunk3_flatten {α : Type} : ∀ l : List α, (chunk3 l).flatten = l
  | [] => rfl
  | [_] => rfl
  | [_, _] => rfl
  | a :: b :: c :: rest => by
    rw [chunk3, List.flatten_cons, chunk3_flatten rest]
    rfl

structure V2Env where
  req : Nat → Bool
  crossrefFetch : String → Option (List String)
  crossrefSaveOk : String → Bool
  bookFetch : String → String → Option BatchPayload
  bookTx : String → String → Option String

structure V2State where
  isDownloading : Bool
  cancelFlag : Bool
  downloadedResources : List String
  store : Store
  chaptersDone : Nat
deriving DecidableEq

structure V2Ctx where
  st : V2State
  trk : Bool
  clock : Nat
  trace : List (String × String)
deriving DecidableEq

/-- One poll of `currentState.cancelDownloadFlag`: absorb any cancel request
delivered since the previous suspension point, then read the flag. -/
def pollV2 (env : V2Env) (c : V2Ctx) : V2Ctx × Bool :=
  let f := c.st.cancelFlag || env.req c.clock
  ({ c with st := { c.st with cancelFlag := f }, clock := c.clock + 1 }, f)

/-- `currentState.downloadedResources[k] = true` on the set of true keys. -/
def resInsert (l : List String) (k : String) : List String :=
  if k ∈ l then l else l ++ [k]

/-- `_downloadAndProcessBook` (V2): poll, fetch, poll, fetch-error check,
merge-save through `saveBookChaptersInBatch`, poll, save-error check.  A save
failure only clears the shared success tracker — this variant has no
quota-exhaustion special case. -/
def v2ProcessBook (env : V2Env) (lang : String) (bid : String) (c : V2Ctx) : V2Ctx :=
  let pr1 := pollV2 env c
  if pr1.2 then pr1.1
  else
    let c1 := pr1.1
    let fr := env.bookFetch lang bid
    let c1t := { c1 with trace := c1.trace ++ [(lang, bid)] }
    let pr2 := pollV2 env c1t
    if pr2.2 then pr2.1
    else
      let c2 := pr2.1
      match fr with
      | none => { c2 with trk := false }
      | some p =>
        let sres := saveBookChaptersInBatch bid lang p c2.st.store (env.bookTx lang bid)
        let c2s := { c2 with st := { c2.st with store := sres.1 } }
        let pr3 := pollV2 env c2s
        if pr3.2 then pr3.1
        else
          let c3 := pr3.1
          match sres.2.error with
          | some _ => { c3 with trk := false }
          | none =>
            { c3 with st := { c3.st with
                chaptersDone := c3.st.chaptersDone + sres.2.savedCount } }

/-- One `Promise.all` batch, sequentialized. -/
def v2ProcessBatch (env : V2Env) (lang : String) (bids : List String) (c : V2Ctx) : V2Ctx :=
  bids.foldl (fun c bid => v2ProcessBook env lang bid c) c

/-- The batch loop with its per-batch cancellation check (`break`). -/
def v2ProcessBatches (env : V2Env) (lang : String) : List (List String) → V2Ctx → V2Ctx
  | [], c => c
  | b :: rest, c =>
    let pr := pollV2 env c
    if pr.2 then pr.1
    else v2ProcessBatches env lang rest (v2ProcessBatch env lang b pr.1)

/-- `_downloadAndProcessCrossRefs` (V2): poll, paginated fetch, poll, error
check, empty check, `saveCoreData` of `crossrefs_<lang>`. -/
def v2ProcessCrossRefs (env : V2Env) (lang : String) (c : V2Ctx) : V2Ctx × Bool :=
  let pr1 := pollV2 env c
  if pr1.2 then (pr1.1, false)
  else
    let r := env.crossrefFetch lang
    let pr2 := pollV2 env pr1.1
    if pr2.2 then (pr2.1, false)
    else
      let c2 := pr2.1
      match r with
      | none => ({ c2 with trk := false }, false)
      | some rows =>
        if rows.isEmpty then (c2, true)
        else if env.crossrefSaveOk lang then
          ({ c2 with st := { c2.st with
              store := storePut c2.st.store ("core-crossrefs_" ++ lang)
                (StoredValue.core rows) } }, true)
        else ({ c2 with trk := false }, false)

/-- `str.split('-')` on the character list: split at every dash. -/
def splitDash : List Char → List (List Char)
  | [] => [[]]
  | c :: rest =>
    if c = Char.ofNat 45 then [] :: splitDash rest
    else
      match splitDash rest with
      | [] => [[c]]
      | g :: gs => (c :: g) :: gs

/-- `id.split('-')` of a resource id. -/
def jsSplit (id : String) : List String := (splitDash id.data).map (fun l => ⟨l⟩)

/-- The per-language task flags: `id.split('-')` yields `[lang, type, ...]`
and only the first two parts are consulted. -/
def taskFlag (resources : List String) (lang ty : String) : Bool :=
  resources.any (fun id =>
    match jsSplit id with
    | l :: t :: _ => l = lang && t = ty
    | _ => false)

/-- The cross-references phase of one language (V2 `start`, step 1): run
`_downloadAndProcessCrossRefs` when requested and mark `<lang>-ref` on
success. -/
def v2RefPhase (env : V2Env) (lang : String) (fRef : Bool) (c : V2Ctx) : V2Ctx :=
  if fRef then
    let c0 := { c with st := { c.st with chaptersDone := 0 } }
    let crr := v2ProcessCrossRefs env lang c0
    if crr.2 then
      { crr.1 with st := { crr.1.st with
          downloadedResources := resInsert crr.1.st.downloadedResources (lang ++ "-ref") } }
    else crr.1
  else c

/-- The books phase of one language (V2 `start`, step 2): unless both book
payload kinds are already ledgered, the batch loop over all books followed by
the ledger marking guarded by the cancellation flag and the shared run
tracker. -/
def v2BooksPhase (env : V2Env) (lang : String) (booksInfo : List Book)
    (fBible fComm : Bool) (c1 : V2Ctx) : V2Ctx :=
  let fetchVerses := fBible && !(c1.st.downloadedResources.contains (lang ++ "-bible"))
  let fetchComm := fComm && !(c1.st.downloadedResources.contains (lang ++ "-commentary"))
  if fetchVerses || fetchComm then
    let books := (booksToDownload booksInfo).map (fun b => b.id)
    let c2 := { c1 with st := { c1.st with chaptersDone := 0 } }
    let c3 := v2ProcessBatches env lang (chunk3 books) c2
    if !c3.st.cancelFlag && c3.trk then
      let r1 := if fetchVerses then resInsert c3.st.downloadedResources (lang ++ "-bible")
        else c3.st.downloadedResources
      let r2 := if fetchComm then resInsert r1 (lang ++ "-commentary") else r1
      let r3 := if fBible then resInsert r2 (lang ++ "-bible") else r2
      let r4 := if fComm then resInsert r3 (lang ++ "-commentary") else r3
      { c3 with st := { c3.st with downloadedResources := r4 } }
    else c3
  else c1

/-- One language's processing inside `start` (V2). -/
def v2ProcessLang (env : V2Env) (resources : List String) (booksInfo : List Book)
    (lang : String) (c : V2Ctx) : V2Ctx :=
  v2BooksPhase env lang booksInfo
    (taskFlag resources lang "bible") (taskFlag resources lang "commentary")
    (v2RefPhase env lang (taskFlag resources lang "ref") c)

/-- The language loop of `start` (V2) with its per-language cancellation
check (`break`). -/
def v2ProcessLangs (env : V2Env) (resources : List String) (booksInfo : List Book) :
    List String → V2Ctx → V2Ctx
  | [], c => c
  | lang :: rest, c =>
    let pr := pollV2 env c
    if pr.2 then pr.1
    else v2ProcessLangs env resources booksInfo rest
      (v2ProcessLang env resources booksInfo lang pr.1)

/-- `start(resourcesToDownload)` (V2 `download.js`): the no-op guards, the
state initialization, the per-language processing, and the `finally` block
that always restores `isDownloading` and `cancelDownloadFlag`. -/
def v2start (env : V2Env) (booksInfo : List Book) (resources : List String)
    (clientOk : Bool) (s0 : V2State) : V2Ctx :=
  if s0.isDownloading then ⟨s0, true, 0, []⟩
  else if !clientOk then ⟨s0, true, 0, []⟩
  else if resources.isEmpty then ⟨s0, true, 0, []⟩
  else
    let s1 := { s0 with isDownloading := true, cancelFlag := false }
    let langs := ["am", "en"].filter (fun l =>
      taskFlag resources l "bible" || taskFlag resources l "commentary"
        || taskFlag resources l "ref")
    let cF := v2ProcessLangs env resources booksInfo langs ⟨s1, true, 0, []⟩
    { cF with st := { cF.st with isDownloading := false, cancelFlag := false } }

/-! ### The V1 download workflow (the `download.js` embedded in `api.js`) -/

structure V1Env where
  req : Nat → Bool
  clientOk : Bool
  confirmOk : Bool
  crossrefFetch : Option (List String)
  crossrefSaveOk : Bool
  bookFetch : String → Option (List VerseEntry)
  bookSave : String → SaveResult

structure V1State where
  isDownloading : Bool
  cancelFlag : Bool
  downloadedBooksByLanguage : List (String × List String)
  downloadedLanguages : List String
  store : Store
  chaptersDone : Nat
deriving DecidableEq

structure V1Ctx where
  st : V1State
  trk : Bool
  clock : Nat
  trace : List String
  runBooks : List String
deriving DecidableEq

def pollV1 (env : V1Env) (c : V1Ctx) : V1Ctx × Bool :=
  let f := c.st.cancelFlag || env.req c.clock
  ({ c with st := { c.st with cancelFlag := f }, clock := c.clock + 1 }, f)

/-- Modelled from the spec: the V1 workflow calls its own era's
`saveBookChaptersInBatch(bookId, language, allVersesForBook)` with a flat
verse array; that cache implementation is not in the repository (the in-repo
V2 `cache.js` destructures `{verses, commentaries}` and would reject the flat
array outright).  Per the spec's store contract the save returns
`{savedCount, error}` and may fail with a quota-exhaustion error; the
environment supplies each book's outcome, and the saved records themselves
are abstracted. -/
def v1SaveBook (env : V1Env) (bid : String) : SaveResult := env.bookSave bid

/-- `_downloadAndProcessBook` (V1, in `api.js`): poll, already-downloaded
skip, fetch, poll, fetch-error check, empty-data check, save, poll,
save-error check with the `QuotaExceededError` escalation that sets the
shared cancellation flag, progress/per-book bookkeeping. -/
def v1ProcessBook (env : V1Env) (language : String) (b : Book) (c : V1Ctx) : V1Ctx :=
  let pr1 := pollV1 env c
  if pr1.2 then pr1.1
  else
    let c1 := pr1.1
    if ((alistGet c1.st.downloadedBooksByLanguage language).getD []).contains b.id then
      { c1 with
        st := { c1.st with chaptersDone := c1.st.chaptersDone + b.chapters }
        runBooks := c1.runBooks ++ [b.id] }
    else
      let fr := env.bookFetch b.id
      let c1t := { c1 with trace := c1.trace ++ [b.id] }
      let pr2 := pollV1 env c1t
      if pr2.2 then pr2.1
      else
        let c2 := pr2.1
        match fr with
        | none => { c2 with trk := false }
        | some rows =>
          if rows.isEmpty then c2
          else
            let sres := v1SaveBook env b.id
            let pr3 := pollV1 env c2
            if pr3.2 then pr3.1
            else
              let c3 := pr3.1
              match sres.error with
              | some e =>
                let c4 := { c3 with trk := false }
                if e.name = "QuotaExceededError" then
                  { c4 with st := { c4.st with cancelFlag := true } }
                else c4
              | none =>
                let c4 := { c3 with st := { c3.st with
                    chaptersDone := c3.st.chaptersDone + sres.savedCount } }
                if b.chapters ≤ sres.savedCount then
                  { c4 with runBooks := c4.runBooks ++ [b.id] }
                else { c4 with trk := false }

def v1ProcessBatch (env : V1Env) (language : String) (books : List Book) (c : V1Ctx) : V1Ctx :=
  books.foldl (fun c b => v1ProcessBook env language b c) c

def v1ProcessBatches (env : V1Env) (language : String) : List (List Book) → V1Ctx → V1Ctx
  | [], c => c
  | b :: rest, c =>
    let pr := pollV1 env c
    if pr.2 then pr.1
    else v1ProcessBatches env language rest (v1ProcessBatch env language b pr.1)

/-- `_downloadAndProcessCrossRefs` (V1): identical to the V2 one. -/
def v1ProcessCrossRefs (env : V1Env) (language : String) (c : V1Ctx) : V1Ctx × Bool :=
  let pr1 := pollV1 env c
  if pr1.2 then (pr1.1, false)
  else
    let r := env.crossrefFetch
    let pr2 := pollV1 env pr1.1
    if pr2.2 then (pr2.1, false)
    else
      let c2 := pr2.1
      match r with
      | none => ({ c2 with trk := false }, false)
      | some rows =>
        if rows.isEmpty then (c2, true)
        else if env.crossrefSaveOk then
          ({ c2 with st := { c2.st with
              store := storePut c2.st.store ("core-crossrefs_" ++ language)
                (StoredValue.core rows) } }, true)
        else ({ c2 with trk := false }, false)

/-- The user-visible terminal status of a V1 run. -/
inductive V1Message where
  | cancelled
  | complete
  | issues
deriving DecidableEq

/-- `start()` (V1, in `api.js`): guards (already downloading, missing client,
empty book list, declined confirm dialog), cross-refs, the batch loop over
all books, and the finalization that merges `_booksDownloadedInThisRun` into
`downloadedBooksByLanguage`, recomputes `downloadedLanguages` from
`allBooksDownloaded && crossrefsSuccess` (note: `wasCancelled` is *not*
consulted there, only for the status message), and the `finally` block. -/
def v1start (env : V1Env) (booksInfo : List Book) (language : String) (s0 : V1State) :
    V1Ctx × Option V1Message :=
  if s0.isDownloading then (⟨s0, true, 0, [], []⟩, none)
  else if !env.clientOk then (⟨s0, true, 0, [], []⟩, none)
  else if booksInfo.isEmpty then (⟨s0, true, 0, [], []⟩, none)
  else if !env.confirmOk then (⟨s0, true, 0, [], []⟩, none)
  else
    let s1 := { s0 with isDownloading := true, cancelFlag := false, chaptersDone := 0 }
    let books := booksToDownload booksInfo
    let crr := v1ProcessCrossRefs env language ⟨s1, true, 0, [], []⟩
    let c2 := v1ProcessBatches env language (chunk3 books) crr.1
    let wasCancelled := c2.st.cancelFlag
    let prior := (alistGet c2.st.downloadedBooksByLanguage language).getD []
    let newList := c2.runBooks.foldl
      (fun l bid => if l.contains bid then l else l ++ [bid]) prior
    let newBooks := alistPut c2.st.downloadedBooksByLanguage language newList
    let st3 := { c2.st with downloadedBooksByLanguage := newBooks }
    let allBooksDownloaded := books.all (fun b => newList.contains b.id)
    let isLangComplete := allBooksDownloaded && crr.2
    let newLangs :=
      if isLangComplete && !(st3.downloadedLanguages.contains language) then
        st3.downloadedLanguages ++ [language]
      else if !isLangComplete then
        st3.downloadedLanguages.filter (fun l => l ≠ language)
      else st3.downloadedLanguages
    let message :=
      if wasCancelled then V1Message.cancelled
      else if c2.trk && isLangComplete then V1Message.complete
      else V1Message.issues
    ({ c2 with
      st := { st3 with
        downloadedLanguages := newLangs
        isDownloading := false
        cancelFlag := false } }, some message)

/-! ### Run invariants of the V2 orchestrator -/

/-- Fetch and merge-save of one book both succeeded, as determined by the
environment. -/
def bookSuccess (env : V2Env) (lang bid : String) : Prop :=
  ∃ p, env.bookFetch lang bid = some p ∧ payloadEmpty p = false
    ∧ env.bookTx lang bid = none

theorem save_error_none_iff (bookId lang : String) (p : BatchPayload) (store : Store)
    (txErr : Option String) :
    (saveBookChaptersInBatch bookId lang p store txErr).2.error = none
      ↔ (payloadEmpty p = false ∧ txErr = none) := by
  unfold saveBookChaptersInBatch
  by_cases hg : payloadEmpty p = true
  · rw [if_pos hg]
    simp [hg]
  · rw [if_neg hg]
    cases txErr with
    | none => simp [Bool.eq_false_iff.mpr hg]
    | some n => simp

theorem v2ProcessBook_resources (env : V2Env) (lang bid : String) (c : V2Ctx) :
    (v2ProcessBook env lang bid c).st.downloadedResources
      = c.st.downloadedResources := by
  unfold v2ProcessBook pollV2
  dsimp only
  split
  · rfl
  · split
    · rfl
    · split
      · rfl
      · split
        · rfl
        · split
          · rfl
          · rfl

theorem v2ProcessBook_flag_mono (env : V2Env) (lang bid : String) (c : V2Ctx)
    (h : c.st.cancelFlag = true) :
    (v2ProcessBook env lang bid c).st.cancelFlag = true := by
  unfold v2ProcessBook pollV2
  simp [h]

theorem v2ProcessBook_trk_mono (env : V2Env) (lang bid : String) (c : V2Ctx)
    (h : c.trk = false) :
    (v2ProcessBook env lang bid c).trk = false := by
  unfold v2ProcessBook pollV2
  dsimp only
  split
  · exact h
  · split
    · exact h
    · split
      · rfl
      · split
        · exact h
        · split
          · rfl
          · exact h

theorem v2ProcessBook_success (env : V2Env) (lang bid : String) (c : V2Ctx) :
    (v2ProcessBook env lang bid c).st.cancelFlag = false →
    (v2ProcessBook env lang bid c).trk = true →
    c.trk = true ∧ bookSuccess env lang bid := by
  unfold v2ProcessBook pollV2
  dsimp only
  split
  · intro hflag _
    simp_all
  · split
    · intro hflag _
      simp_all
    · split
      · intro _ htrk
        simp_all
      · next p hfetch =>
        split
        · intro hflag _
          simp_all
        · split
          · intro _ htrk
            simp_all
          · next herr =>
            intro hflag htrk
            refine ⟨htrk, ?_⟩
            obtain ⟨hpe, htx⟩ :=
              (save_error_none_iff bid lang p c.st.store (env.bookTx lang bid)).mp herr
            exact ⟨p, hfetch, hpe, htx⟩

theorem pollV2_st (env : V2Env) (c : V2Ctx) :
    (pollV2 env c).1.st.downloadedResources = c.st.downloadedResources
      ∧ (pollV2 env c).1.trk = c.trk
      ∧ (pollV2 env c).1.st.store = c.st.store := ⟨rfl, rfl, rfl⟩

theorem pollV2_flag_true (env : V2Env) (c : V2Ctx) (h : c.st.cancelFlag = true) :
    (pollV2 env c).2 = true := by
  unfold pollV2
  simp [h]

theorem v2ProcessBatch_resources (env : V2Env) (lang : String) (bids : List String)
    (c : V2Ctx) :
    (v2ProcessBatch env lang bids c).st.downloadedResources
      = c.st.downloadedResources := by
  unfold v2ProcessBatch
  induction bids generalizing c with
  | nil => rfl
  | cons bid rest ih =>
    rw [List.foldl_cons, ih]
    exact v2ProcessBook_resources env lang bid c

theorem v2ProcessBatch_flag_mono (env : V2Env) (lang : String) (bids : List String)
    (c : V2Ctx) (h : c.st.cancelFlag = true) :
    (v2ProcessBatch env lang bids c).st.cancelFlag = true := by
  unfold v2ProcessBatch
  induction bids generalizing c with
  | nil => exact h
  | cons bid rest ih =>
    rw [List.foldl_cons]
    exact ih _ (v2ProcessBook_flag_mono env lang bid c h)

theorem v2ProcessBatch_trk_mono (env : V2Env) (lang : String) (bids : List String)
    (c : V2Ctx) (h : c.trk = false) :
    (v2ProcessBatch env lang bids c).trk = false := by
  unfold v2ProcessBatch
  induction bids generalizing c with
  | nil => exact h
  | cons bid rest ih =>
    rw [List.foldl_cons]
    exact ih _ (v2ProcessBook_trk_mono env lang bid c h)

theorem v2ProcessBatch_success (env : V2Env) (lang : String) (bids : List String)
    (c : V2Ctx) :
    (v2ProcessBatch env lang bids c).st.cancelFlag = false →
    (v2ProcessBatch env lang bids c).trk = true →
    c.trk = true ∧ ∀ bid ∈ bids, bookSuccess env lang bid := by
  unfold v2ProcessBatch
  induction bids generalizing c with
  | nil => exact fun _ htrk => ⟨htrk, fun bid hbid => absurd hbid (List.not_mem_nil bid)⟩
  | cons bid rest ih =>
    rw [List.foldl_cons]
    intro hflag htrk
    have hcf : (v2ProcessBook env lang bid c).st.cancelFlag = false := by
      cases hx : (v2ProcessBook env lang bid c).st.cancelFlag with
      | false => rfl
      | true =>
        have := v2ProcessBatch_flag_mono env lang rest _ hx
        unfold v2ProcessBatch at this
        rw [this] at hflag
        cases hflag
    have hct : (v2ProcessBook env lang bid c).trk = true := by
      cases hx : (v2ProcessBook env lang bid c).trk with
      | true => rfl
      | false =>
        have := v2ProcessBatch_trk_mono env lang rest _ hx
        unfold v2ProcessBatch at this
        rw [this] at htrk
        cases htrk
    obtain ⟨hc, hs⟩ := v2ProcessBook_success env lang bid c hcf hct
    obtain ⟨_, hrest⟩ := ih _ hflag htrk
    refine ⟨hc, ?_⟩
    intro b hb
    rcases List.mem_cons.mp hb with rfl | hb
    · exact hs
    · exact hrest b hb

theorem v2ProcessBatches_resources (env : V2Env) (lang : String)
    (batches : List (List String)) (c : V2Ctx) :
    (v2ProcessBatches env lang batches c).st.downloadedResources
      = c.st.downloadedResources := by
  induction batches generalizing c with
  | nil => rfl
  | cons b rest ih =>
    unfold v2ProcessBatches
    dsimp only
    split
    · rfl
    · rw [ih]
      rw [v2ProcessBatch_resources]
      rfl

theorem v2ProcessBatches_flag_mono (env : V2Env) (lang : String)
    (batches : List (List String)) (c : V2Ctx) (h : c.st.cancelFlag = true) :
    (v2ProcessBatches env lang batches c).st.cancelFlag = true := by
  induction batches generalizing c with
  | nil => exact h
  | cons b rest ih =>
    unfold v2ProcessBatches
    dsimp only
    have hp := pollV2_flag_true env c h
    rw [hp]
    simp only [if_true]
    unfold pollV2
    simp [h]

theorem v2ProcessBatches_trk_mono (env : V2Env) (lang : String)
    (batches : List (List String)) (c : V2Ctx) (h : c.trk = false) :
    (v2ProcessBatches env lang batches c).trk = false := by
  induction batches generalizing c with
  | nil => exact h
  | cons b rest ih =>
    unfold v2ProcessBatches
    dsimp only
    split
    · exact h
    · exact ih _ (v2ProcessBatch_trk_mono env lang b _ h)

theorem v2ProcessBatches_success (env : V2Env) (lang : String)
    (batches : List (List String)) (c : V2Ctx) :
    (v2ProcessBatches env lang batches c).st.cancelFlag = false →
    (v2ProcessBatches env lang batches c).trk = true →
    c.trk = true ∧ ∀ bid ∈ batches.flatten, bookSuccess env lang bid := by
  induction batches generalizing c with
  | nil => exact fun _ htrk => ⟨htrk, fun bid hbid => absurd hbid (List.not_mem_nil bid)⟩
  | cons b rest ih =>
    unfold v2ProcessBatches
    dsimp only
    split
    · next hpoll =>
      intro hflag _
      unfold pollV2 at hpoll hflag
      simp only at hpoll hflag
      rw [hpoll] at hflag
      cases hflag
    · intro hflag htrk
      have hbf : (v2ProcessBatch env lang b (pollV2 env c).1).st.cancelFlag = false := by
        cases hx : (v2ProcessBatch env lang b (pollV2 env c).1).st.cancelFlag with
        | false => rfl
        | true =>
          have := v2ProcessBatches_flag_mono env lang rest _ hx
          rw [this] at hflag
          cases hflag
      have hbt : (v2ProcessBatch env lang b (pollV2 env c).1).trk = true := by
        cases hx : (v2ProcessBatch env lang b (pollV2 env c).1).trk with
        | true => rfl
        | false =>
          have := v2ProcessBatches_trk_mono env lang rest _ hx
          rw [this] at htrk
          cases htrk
      obtain ⟨hptrk, hbooks⟩ := v2ProcessBatch_success env lang b _ hbf hbt
      obtain ⟨_, hrest⟩ := ih _ hflag htrk
      have hctrk : c.trk = true := by
        unfold pollV2 at hptrk
        exact hptrk
      refine ⟨hctrk, ?_⟩
      intro bid hbid
      rw [List.flatten_cons] at hbid
      rcases List.mem_append.mp hbid with hbid | hbid
      · exact hbooks bid hbid
      · exact hrest bid hbid

theorem mem_resInsert (l : List String) (x k : String) :
    k ∈ resInsert l x ↔ k ∈ l ∨ k = x := by
  unfold resInsert
  by_cases hx : x ∈ l
  · rw [if_pos hx]
    constructor
    · exact Or.inl
    · rintro (h | rfl)
      · exact h
      · exact hx
  · rw [if_neg hx]
    constructor
    · intro h
      rcases List.mem_append.mp h with h | h
      · exact Or.inl h
      · exact Or.inr (List.mem_singleton.mp h)
    · rintro (h | rfl)
      · exact List.mem_append.mpr (Or.inl h)
      · exact List.mem_append.mpr (Or.inr (List.mem_singleton.mpr rfl))

theorem str_append_left_cancel {s a b : String} (h : s ++ a = s ++ b) : a = b := by
  have hd := congrArg String.data h
  simp only [String.data_append] at hd
  exact String.ext (List.append_cancel_left hd)

/-- The cross-reference fetch and save of a language both succeeded (or there
was nothing to save). -/
def refSuccess (env : V2Env) (lang : String) : Prop :=
  ∃ rows, env.crossrefFetch lang = some rows
    ∧ (rows.isEmpty = true ∨ env.crossrefSaveOk lang = true)

theorem v2ProcessCrossRefs_resources (env : V2Env) (lang : String) (c : V2Ctx) :
    (v2ProcessCrossRefs env lang c).1.st.downloadedResources
      = c.st.downloadedResources := by
  unfold v2ProcessCrossRefs pollV2
  dsimp only
  split
  · rfl
  · split
    · rfl
    · split
      · rfl
      · split
        · rfl
        · split
          · rfl
          · rfl

theorem v2ProcessCrossRefs_trk_mono (env : V2Env) (lang : String) (c : V2Ctx)
    (h : c.trk = false) : (v2ProcessCrossRefs env lang c).1.trk = false := by
  unfold v2ProcessCrossRefs pollV2
  dsimp only
  split
  · exact h
  · split
    · exact h
    · split
      · rfl
      · split
        · exact h
        · split
          · exact h
          · rfl

theorem v2ProcessCrossRefs_success (env : V2Env) (lang : String) (c : V2Ctx)
    (h : (v2ProcessCrossRefs env lang c).2 = true) : refSuccess env lang := by
  unfold v2ProcessCrossRefs pollV2 at h
  dsimp only at h
  revert h
  split
  · intro h
    cases h
  · split
    · intro h
      cases h
    · split
      · intro h
        cases h
      · next rows hfetch =>
        split
        · intro _
          exact ⟨rows, hfetch, Or.inl (by assumption)⟩
        · split
          · intro _
            exact ⟨rows, hfetch, Or.inr (by assumption)⟩
          · intro h
            cases h

theorem v2RefPhase_sound (env : V2Env) (lang : String) (fRef : Bool) (c : V2Ctx)
    (k : String) (hnotin : k ∉ c.st.downloadedResources)
    (hin : k ∈ (v2RefPhase env lang fRef c).st.downloadedResources) :
    k = lang ++ "-ref" ∧ refSuccess env lang := by
  unfold v2RefPhase at hin
  revert hin
  by_cases hf : fRef = true
  · rw [if_pos hf]
    dsimp only
    split
    · next hsucc =>
      intro hin
      rw [mem_resInsert, v2ProcessCrossRefs_resources] at hin
      rcases hin with hin | rfl
      · exact absurd hin hnotin
      · exact ⟨rfl, v2ProcessCrossRefs_success env lang _ hsucc⟩
    · intro hin
      rw [v2ProcessCrossRefs_resources] at hin
      exact absurd hin hnotin
  · rw [if_neg hf]
    intro hin
    exact absurd hin hnotin

theorem v2RefPhase_res_mono (env : V2Env) (lang : String) (fRef : Bool) (c : V2Ctx)
    (k : String) (hk : k ∈ c.st.downloadedResources) :
    k ∈ (v2RefPhase env lang fRef c).st.downloadedResources := by
  unfold v2RefPhase
  by_cases hf : fRef = true
  · rw [if_pos hf]
    dsimp only
    split
    · rw [mem_resInsert, v2ProcessCrossRefs_resources]
      exact Or.inl hk
    · rw [v2ProcessCrossRefs_resources]
      exact hk
  · rw [if_neg hf]
    exact hk

theorem v2RefPhase_trk_mono (env : V2Env) (lang : String) (fRef : Bool) (c : V2Ctx)
    (h : c.trk = false) : (v2RefPhase env lang fRef c).trk = false := by
  unfold v2RefPhase
  by_cases hf : fRef = true
  · rw [if_pos hf]
    dsimp only
    split
    · exact v2ProcessCrossRefs_trk_mono env lang _ h
    · exact v2ProcessCrossRefs_trk_mono env lang _ h
  · rw [if_neg hf]
    exact h

theorem v2BooksPhase_sound (env : V2Env) (lang : String) (booksInfo : List Book)
    (fBible fComm : Bool) (c1 : V2Ctx) (k : String)
    (hnotin : k ∉ c1.st.downloadedResources)
    (hin : k ∈ (v2BooksPhase env lang booksInfo fBible fComm c1).st.downloadedResources) :
    (k = lang ++ "-bible" ∨ k = lang ++ "-commentary")
      ∧ ∀ b ∈ booksToDownload booksInfo, bookSuccess env lang b.id := by
  unfold v2BooksPhase at hin
  revert hin
  dsimp only
  split
  · split
    · next hmark =>
      intro hin
      rcases Bool.and_eq_true_iff.mp hmark with ⟨hnotflag, htrk⟩
      have hflag : (v2ProcessBatches env lang
          (chunk3 ((booksToDownload booksInfo).map (fun b => b.id)))
          { c1 with st := { c1.st with chaptersDone := 0 } }).st.cancelFlag = false := by
        cases hx : (v2ProcessBatches env lang
            (chunk3 ((booksToDownload booksInfo).map (fun b => b.id)))
            { c1 with st := { c1.st with chaptersDone := 0 } }).st.cancelFlag with
        | false => rfl
        | true =>
          rw [hx] at hnotflag
          cases hnotflag
      obtain ⟨_, hbooks⟩ := v2ProcessBatches_success env lang _ _ hflag htrk
      have hres : (v2ProcessBatches env lang
          (chunk3 ((booksToDownload booksInfo).map (fun b => b.id)))
          { c1 with st := { c1.st with chaptersDone := 0 } }).st.downloadedResources
          = c1.st.downloadedResources := by
        rw [v2ProcessBatches_resources]
      have hsuccess : ∀ b ∈ booksToDownload booksInfo, bookSuccess env lang b.id := by
        intro b hb
        apply hbooks
        rw [chunk3_flatten]
        exact List.mem_map_of_mem (fun b => b.id) hb
      refine ⟨?_, hsuccess⟩
      revert hin
      dsimp only
      split <;> split <;> split <;> split <;>
        · intro hin
          simp only [mem_resInsert, hres] at hin
          tauto
    · intro hin
      rw [v2ProcessBatches_resources] at hin
      exact absurd hin hnotin
  · intro hin
    exact absurd hin hnotin

theorem v2ProcessLang_sound (env : V2Env) (resources : List String)
    (booksInfo : List Book) (lang : String) (c : V2Ctx) (k : String)
    (hnotin : k ∉ c.st.downloadedResources)
    (hin : k ∈ (v2ProcessLang env resources booksInfo lang c).st.downloadedResources) :
    (k = lang ++ "-ref" ∧ refSuccess env lang)
      ∨ ((k = lang ++ "-bible" ∨ k = lang ++ "-commentary")
          ∧ ∀ b ∈ booksToDownload booksInfo, bookSuccess env lang b.id) := by
  unfold v2ProcessLang at hin
  by_cases hmid :
      k ∈ (v2RefPhase env lang (taskFlag resources lang "ref") c).st.downloadedResources
  · exact Or.inl (v2RefPhase_sound env lang _ c k hnotin hmid)
  · exact Or.inr (v2BooksPhase_sound env lang booksInfo _ _ _ k hmid hin)

theorem v2ProcessLangs_sound (env : V2Env) (resources : List String)
    (booksInfo : List Book) (langs : List String) (c : V2Ctx) (k : String)
    (hnotin : k ∉ c.st.downloadedResources)
    (hin : k ∈ (v2ProcessLangs env resources booksInfo langs c).st.downloadedResources) :
    ∃ lang ∈ langs,
      (k = lang ++ "-ref" ∧ refSuccess env lang)
        ∨ ((k = lang ++ "-bible" ∨ k = lang ++ "-commentary")
            ∧ ∀ b ∈ booksToDownload booksInfo, bookSuccess env lang b.id) := by
  induction langs generalizing c with
  | nil => exact absurd hin hnotin
  | cons lang rest ih =>
    unfold v2ProcessLangs at hin
    revert hin
    dsimp only
    split
    · intro hin
      exact absurd hin hnotin
    · intro hin
      by_cases hmid :
          k ∈ (v2ProcessLang env resources booksInfo lang (pollV2 env c).1).st.downloadedResources
      · have hnotin' : k ∉ (pollV2 env c).1.st.downloadedResources := hnotin
        exact ⟨lang, List.mem_cons_self lang rest,
          v2ProcessLang_sound env resources booksInfo lang _ k hnotin' hmid⟩
      · obtain ⟨l, hl, hdisj⟩ := ih _ hmid hin
        exact ⟨l, List.mem_cons_of_mem lang hl, hdisj⟩

/-- Ledger soundness of the V2 `start`: a resource key newly true in
`downloadedResources` after an actual run was marked by one of the processed
languages, and the marking required either the cross-reference phase's own
success or the cancel-flag-clean, tracker-clean completion of every targeted
book's fetch-and-merge-save. -/
theorem v2start_sound (env : V2Env) (booksInfo : List Book) (resources : List String)
    (s0 : V2State) (k : String)
    (hguard1 : s0.isDownloading = false) (hguard2 : resources.isEmpty = false)
    (hnotin : k ∉ s0.downloadedResources)
    (hin : k ∈ (v2start env booksInfo resources true s0).st.downloadedResources) :
    ∃ lang ∈ (["am", "en"].filter (fun l =>
        taskFlag resources l "bible" || taskFlag resources l "commentary"
          || taskFlag resources l "ref")),
      (k = lang ++ "-ref" ∧ refSuccess env lang)
        ∨ ((k = lang ++ "-bible" ∨ k = lang ++ "-commentary")
            ∧ ∀ b ∈ booksToDownload booksInfo, bookSuccess env lang b.id) := by
  unfold v2start at hin
  rw [hguard1] at hin
  simp only [Bool.false_eq_true, if_false, Bool.not_true, hguard2] at hin
  exact v2ProcessLangs_sound env resources booksInfo _ _ k hnotin hin

theorem v2BooksPhase_res_mono (env : V2Env) (lang : String) (booksInfo : List Book)
    (fBible fComm : Bool) (c1 : V2Ctx) (k : String)
    (hk : k ∈ c1.st.downloadedResources) :
    k ∈ (v2BooksPhase env lang booksInfo fBible fComm c1).st.downloadedResources := by
  unfold v2BooksPhase
  dsimp only
  split
  · split
    · have hres := v2ProcessBatches_resources env lang
        (chunk3 ((booksToDownload booksInfo).map (fun b => b.id)))
        { c1 with st := { c1.st with chaptersDone := 0 } }
      split <;> split <;> split <;> split <;>
        · dsimp only
          simp only [mem_resInsert, hres]
          tauto
    · rw [v2ProcessBatches_resources]
      exact hk
  · exact hk

theorem v2ProcessLang_res_mono (env : V2Env) (resources : List String)
    (booksInfo : List Book) (lang : String) (c : V2Ctx) (k : String)
    (hk : k ∈ c.st.downloadedResources) :
    k ∈ (v2ProcessLang env resources booksInfo lang c).st.downloadedResources := by
  unfold v2ProcessLang
  exact v2BooksPhase_res_mono env lang booksInfo _ _ _ k
    (v2RefPhase_res_mono env lang _ c k hk)

theorem v2ProcessLangs_res_mono (env : V2Env) (resources : List String)
    (booksInfo : List Book) (langs : List String) (c : V2Ctx) (k : String)
    (hk : k ∈ c.st.downloadedResources) :
    k ∈ (v2ProcessLangs env resources booksInfo langs c).st.downloadedResources := by
  induction langs generalizing c with
  | nil => exact hk
  | cons lang rest ih =>
    unfold v2ProcessLangs
    dsimp only
    split
    · exact hk
    · exact ih _ (v2ProcessLang_res_mono env resources booksInfo lang _ k hk)

/-- The V2 ledger never rolls a resource flag back: every key already true
before the run is still true after it. -/
theorem v2start_res_mono (env : V2Env) (booksInfo : List Book) (resources : List String)
    (clientOk : Bool) (s0 : V2State) (k : String)
    (hk : k ∈ s0.downloadedResources) :
    k ∈ (v2start env booksInfo resources clientOk s0).st.downloadedResources := by
  unfold v2start
  dsimp only
  split
  · exact hk
  · split
    · exact hk
    · split
      · exact hk
      · exact v2ProcessLangs_res_mono env resources booksInfo _ _ k hk

theorem v2ProcessCrossRefs_fetchFail (env : V2Env) (lang : String) (c : V2Ctx)
    (hreq : ∀ t, env.req t = false) (hflag : c.st.cancelFlag = false)
    (hfetch : env.crossrefFetch lang = none) :
    (v2ProcessCrossRefs env lang c).2 = false
      ∧ (v2ProcessCrossRefs env lang c).1.trk = false
      ∧ (v2ProcessCrossRefs env lang c).1.st.cancelFlag = false := by
  unfold v2ProcessCrossRefs pollV2
  simp [hreq, hflag, hfetch]

theorem v2RefPhase_fetchFail (env : V2Env) (lang : String) (c : V2Ctx)
    (hreq : ∀ t, env.req t = false) (hflag : c.st.cancelFlag = false)
    (hfetch : env.crossrefFetch lang = none) :
    (v2RefPhase env lang true c).trk = false
      ∧ (v2RefPhase env lang true c).st.downloadedResources = c.st.downloadedResources := by
  unfold v2RefPhase
  dsimp only
  obtain ⟨hsucc, htrk, _⟩ := v2ProcessCrossRefs_fetchFail env lang
    { c with st := { c.st with chaptersDone := 0 } } hreq hflag hfetch
  rw [hsucc]
  simp only [Bool.false_eq_true, if_false]
  exact ⟨htrk, v2ProcessCrossRefs_resources env lang _⟩

/-- When the shared tracker is already false, the books phase marks nothing. -/
theorem v2BooksPhase_res_of_trkFalse (env : V2Env) (lang : String)
    (booksInfo : List Book) (fBible fComm : Bool) (c1 : V2Ctx)
    (htrk : c1.trk = false) :
    (v2BooksPhase env lang booksInfo fBible fComm c1).st.downloadedResources
      = c1.st.downloadedResources := by
  unfold v2BooksPhase
  dsimp only
  split
  · have htrk3 : (v2ProcessBatches env lang
        (chunk3 ((booksToDownload booksInfo).map (fun b => b.id)))
        { c1 with st := { c1.st with chaptersDone := 0 } }).trk = false :=
      v2ProcessBatches_trk_mono env lang _ _ htrk
    split
    · next hmark =>
      rw [Bool.and_eq_true_iff] at hmark
      rw [htrk3] at hmark
      cases hmark.2
    · rw [v2ProcessBatches_resources]
  · rfl

/-! ### Run lemmas of the V1 workflow -/

/-- Once the shared cancellation flag is set, the batch loop of the V1 run
starts no further book: the fetch trace never grows. -/
theorem v1ProcessBatches_trace_of_flag (env : V1Env) (language : String)
    (batches : List (List Book)) (c : V1Ctx) (h : c.st.cancelFlag = true) :
    (v1ProcessBatches env language batches c).trace = c.trace := by
  cases batches with
  | nil => rfl
  | cons b rest =>
    unfold v1ProcessBatches pollV1
    simp [h]

/-- The quota-exhaustion escalation of the V1 `_downloadAndProcessBook`: a
merge-save failing with a `QuotaExceededError` sets the shared cancellation
flag, and the book itself is the last fetch of the run. -/
theorem v1ProcessBook_quota (env : V1Env) (language : String) (b : Book) (c : V1Ctx)
    (n : Nat) (rows : List VerseEntry)
    (hreq : ∀ t, env.req t = false) (hflag : c.st.cancelFlag = false)
    (hskip : ((alistGet c.st.downloadedBooksByLanguage language).getD []).contains b.id
      = false)
    (hfetch : env.bookFetch b.id = some rows) (hrows : rows.isEmpty = false)
    (hsave : env.bookSave b.id = ⟨n, some (SaveError.tx "QuotaExceededError")⟩) :
    (v1ProcessBook env language b c).st.cancelFlag = true
      ∧ (v1ProcessBook env language b c).trace = c.trace ++ [b.id] := by
  have hskip2 : b.id ∉ (alistGet c.st.downloadedBooksByLanguage language).getD [] := by
    simpa using hskip
  unfold v1ProcessBook pollV1 v1SaveBook
  simp [hreq, hflag, hskip2, hfetch, hrows, hsave, SaveError.name]

/-- After the V1 quota escalation, no later batch issues any fetch. -/
theorem v1_quota_escalation (env : V1Env) (language : String) (b : Book) (c : V1Ctx)
    (n : Nat) (rows : List VerseEntry) (restBatches : List (List Book))
    (hreq : ∀ t, env.req t = false) (hflag : c.st.cancelFlag = false)
    (hskip : ((alistGet c.st.downloadedBooksByLanguage language).getD []).contains b.id
      = false)
    (hfetch : env.bookFetch b.id = some rows) (hrows : rows.isEmpty = false)
    (hsave : env.bookSave b.id = ⟨n, some (SaveError.tx "QuotaExceededError")⟩) :
    (v1ProcessBatches env language restBatches (v1ProcessBook env language b c)).trace
      = c.trace ++ [b.id] := by
  obtain ⟨hcf, htr⟩ := v1ProcessBook_quota env language b c n rows hreq hflag hskip
    hfetch hrows hsave
  rw [v1ProcessBatches_trace_of_flag env language restBatches _ hcf, htr]

/-- The `finally` block of the V2 `start`: after any actual run, both
`isDownloading` and `cancelDownloadFlag` are false. -/
theorem v2start_flags (env : V2Env) (booksInfo : List Book) (resources : List String)
    (s0 : V2State) (h1 : s0.isDownloading = false) (h3 : resources.isEmpty = false) :
    (v2start env booksInfo resources true s0).st.isDownloading = false
      ∧ (v2start env booksInfo resources true s0).st.cancelFlag = false := by
  unfold v2start
  simp [h1, h3]

/-- The `finally` block of the V1 `start`. -/
theorem v1start_flags (env : V1Env) (booksInfo : List Book) (language : String)
    (s0 : V1State) (h1 : s0.isDownloading = false) (h2 : env.clientOk = true)
    (h3 : booksInfo.isEmpty = false) (h4 : env.confirmOk = true) :
    (v1start env booksInfo language s0).1.st.isDownloading = false
      ∧ (v1start env booksInfo language s0).1.st.cancelFlag = false := by
  unfold v1start
  simp [h1, h2, h3, h4]

/-! ### Claim theorems -/

theorem entryFor_of_mem (l : List VerseEntry)
    (hnd : (l.map (fun e => e.verse_num)).Nodup) (e : VerseEntry) (he : e ∈ l) :
    entryFor l e.verse_num = some e := by
  unfold entryFor
  cases hf : l.find? (fun x => x.verse_num = e.verse_num) with
  | some x =>
    have hx : x ∈ l := List.mem_of_find?_eq_some hf
    have hpx : x.verse_num = e.verse_num := by
      have := List.find?_some hf
      simpa using this
    rw [List.inj_on_of_nodup_map hnd hx he hpx]
  | none =>
    exfalso
    have := List.find?_eq_none.mp hf e he
    simp at this

theorem chaptersOf_commOnly (c : CommentaryEntry) :
    chaptersOf ⟨none, some [c]⟩ = [c.chapter_num] := rfl

theorem chaptersOf_verseOnly (v : VerseEntry) :
    chaptersOf ⟨some [v], none⟩ = [v.chapter_num] := rfl

/-- C1.  For every existing chapter record and every payload given to
`saveBookChaptersInBatch`, the merge is keyed by verse number: a
commentary-only payload for a verse preserves that verse's stored verse text
(and display number), and a verse-text-only payload (one carrying no
commentary field) preserves that verse's stored commentary; in both cases the
new field wins where supplied (read-modify-write, last-writer-wins per
field). -/
theorem claim_C1 (store : Store) (bookId lang : String) (ch : Nat)
    (d : List VerseEntry) (dl : Bool) (e : VerseEntry)
    (hget : storeGet store (chapterKey bookId ch lang)
      = some (StoredValue.chapterRec d dl))
    (hnd : (d.map (fun x => x.verse_num)).Nodup) (he : e ∈ d) :
    (∀ c : CommentaryEntry, c.verse_num = e.verse_num → c.chapter_num = ch →
      (saveBookChaptersInBatch bookId lang ⟨none, some [c]⟩ store none).2.error = none
        ∧ ∃ d', storeGet (saveBookChaptersInBatch bookId lang ⟨none, some [c]⟩ store none).1
            (chapterKey bookId ch lang) = some (StoredValue.chapterRec d' true)
          ∧ ∃ e' ∈ d', e'.verse_num = e.verse_num
              ∧ e'.verse_text = e.verse_text
              ∧ e'.verse_display_num = e.verse_display_num
              ∧ e'.commentary_text = c.commentary_text)
    ∧ (∀ v : VerseEntry, v.verse_num = e.verse_num → v.chapter_num = ch →
        v.commentary_text = none →
      (saveBookChaptersInBatch bookId lang ⟨some [v], none⟩ store none).2.error = none
        ∧ ∃ d', storeGet (saveBookChaptersInBatch bookId lang ⟨some [v], none⟩ store none).1
            (chapterKey bookId ch lang) = some (StoredValue.chapterRec d' true)
          ∧ ∃ e' ∈ d', e'.verse_num = e.verse_num
              ∧ e'.commentary_text = e.commentary_text
              ∧ e'.verse_text = ovr v.verse_text e.verse_text
              ∧ e'.verse_display_num = ovr v.verse_display_num e.verse_display_num) := by
  have hlast : lastWith d e.verse_num = some e := by
    rw [lastWith_eq_entryFor d hnd]
    exact entryFor_of_mem d hnd e he
  have hex : existingDataAt store (chapterKey bookId ch lang) = d := by
    unfold existingDataAt
    rw [hget]
  constructor
  · intro c hcv hcc
    have hne : ¬ payloadEmpty (⟨none, some [c]⟩ : BatchPayload) = true := by
      unfold payloadEmpty
      simp
    rw [save_commit bookId lang _ store hne]
    refine ⟨rfl, ?_⟩
    have hfold := (saveFold_get bookId lang [] [c] (chaptersOf ⟨none, some [c]⟩)
      (chaptersOf_nodup _) store).1
    rw [chaptersOf_commOnly, hcc] at hfold
    have hch := hfold ch (List.mem_singleton.mpr rfl)
    rw [hex] at hch
    refine ⟨mergeChapter d [] [c] ch, ?_, ?_⟩
    · simpa [chaptersOf_commOnly, hcc] using hch
    · have hmerged : entryFor (mergeChapter d [] [c] ch) e.verse_num
          = some (applyCommentary (some e) c ch) := by
        rw [entryFor_mergeChapter]
        unfold mergedAt vRowsAt cRowsAt
        have hv : ([] : List VerseEntry).filter (fun v => v.chapter_num = ch) = [] := rfl
        have hc1 : ([c].filter (fun x => x.chapter_num = ch)) = [c] := by
          simp [hcc]
        have hc2 : ([c].filter (fun x => x.verse_num = e.verse_num)) = [c] := by
          simp [hcv]
        rw [hv, hc1, hc2, hlast]
        rfl
      refine ⟨applyCommentary (some e) c ch, ?_, ?_, rfl, rfl, rfl⟩
      · exact List.mem_of_find?_eq_some hmerged
      · show c.verse_num = e.verse_num
        exact hcv
  · intro v hvv hvc hvcomm
    have hne : ¬ payloadEmpty (⟨some [v], none⟩ : BatchPayload) = true := by
      unfold payloadEmpty
      simp
    rw [save_commit bookId lang _ store hne]
    refine ⟨rfl, ?_⟩
    have hfold := (saveFold_get bookId lang [v] [] (chaptersOf ⟨some [v], none⟩)
      (chaptersOf_nodup _) store).1
    rw [chaptersOf_verseOnly, hvc] at hfold
    have hch := hfold ch (List.mem_singleton.mpr rfl)
    rw [hex] at hch
    refine ⟨mergeChapter d [v] [] ch, ?_, ?_⟩
    · simpa [chaptersOf_verseOnly, hvc] using hch
    · have hmerged : entryFor (mergeChapter d [v] [] ch) e.verse_num
          = some (spreadVerse (some e) v ch) := by
        rw [entryFor_mergeChapter]
        unfold mergedAt vRowsAt cRowsAt
        have hcnil : ([] : List CommentaryEntry).filter (fun x => x.chapter_num = ch)
            = [] := rfl
        have hv1 : ([v].filter (fun x => x.chapter_num = ch)) = [v] := by
          simp [hvc]
        have hv2 : ([v].filter (fun x => x.verse_num = e.verse_num)) = [v] := by
          simp [hvv]
        rw [hcnil, hv1, hv2, hlast]
        rfl
      refine ⟨spreadVerse (some e) v ch, List.mem_of_find?_eq_some hmerged, ?_, ?_, rfl, rfl⟩
      · show v.verse_num = e.verse_num
        exact hvv
      · show ovr v.commentary_text (exField (some e) (fun x => x.commentary_text))
            = e.commentary_text
        rw [hvcomm]
        rfl

/-- Concrete data for the C1 witness: the spec's own example, a record
holding verse 1 with text "A" and a commentary-only payload carrying "C". -/
def exVerseA : VerseEntry := ⟨1, 1, none, some "A", none⟩

def exStoreA : Store := [(chapterKey "genesis" 1 "am", StoredValue.chapterRec [exVerseA] true)]

def exCommC : CommentaryEntry := ⟨1, 1, some "C"⟩

theorem claim_C1_witness :
    (saveBookChaptersInBatch "genesis" "am" ⟨none, some [exCommC]⟩ exStoreA none).2.error
        = none
      ∧ ∃ d', storeGet
          (saveBookChaptersInBatch "genesis" "am" ⟨none, some [exCommC]⟩ exStoreA none).1
          (chapterKey "genesis" 1 "am") = some (StoredValue.chapterRec d' true)
        ∧ ∃ e' ∈ d', e'.verse_num = exVerseA.verse_num
            ∧ e'.verse_text = exVerseA.verse_text
            ∧ e'.verse_display_num = exVerseA.verse_display_num
            ∧ e'.commentary_text = exCommC.commentary_text :=
  (claim_C1 exStoreA "genesis" "am" 1 [exVerseA] true exVerseA rfl (by decide)
    (by decide)).1 exCommC rfl rfl

/-- C3.  `saveBookChaptersInBatch` is atomic per book: either the result
reports no error, `savedCount` is the number of touched chapters, every
touched chapter's record is the merge of its pre-transaction record with the
payload, and every other key is untouched — or an error is reported and no
key of the store changed at all (the single IndexedDB transaction rolled
back), so a reader never observes a partially-written subset. -/
theorem claim_C3 (bookId lang : String) (p : BatchPayload) (store : Store)
    (txErr : Option String) :
    ((saveBookChaptersInBatch bookId lang p store txErr).2.error = none
      ∧ (saveBookChaptersInBatch bookId lang p store txErr).2.savedCount
          = (chaptersOf p).length
      ∧ (∀ ch ∈ chaptersOf p,
          storeGet (saveBookChaptersInBatch bookId lang p store txErr).1
              (chapterKey bookId ch lang)
            = some (StoredValue.chapterRec
                (mergeChapter (existingDataAt store (chapterKey bookId ch lang))
                  (p.verses.getD []) (p.commentaries.getD []) ch) true))
      ∧ (∀ k : String, (∀ ch ∈ chaptersOf p, k ≠ chapterKey bookId ch lang) →
          storeGet (saveBookChaptersInBatch bookId lang p store txErr).1 k
            = storeGet store k))
    ∨ ((saveBookChaptersInBatch bookId lang p store txErr).2.error ≠ none
      ∧ (saveBookChaptersInBatch bookId lang p store txErr).1 = store) := by
  by_cases hguard : payloadEmpty p = true
  · right
    unfold saveBookChaptersInBatch
    rw [if_pos hguard]
    exact ⟨by simp, rfl⟩
  · cases txErr with
    | some n =>
      right
      unfold saveBookChaptersInBatch
      rw [if_neg hguard]
      exact ⟨by simp, rfl⟩
    | none =>
      left
      rw [save_commit bookId lang p store hguard]
      obtain ⟨h1, h2⟩ := saveFold_get bookId lang (p.verses.getD [])
        (p.commentaries.getD []) (chaptersOf p) (chaptersOf_nodup p) store
      exact ⟨rfl, rfl, h1, h2⟩

/-- C8.  Merge idempotence: for every book, language and payload, saving the
same `(verses, commentaries)` payload twice in a row leaves the identical
final store of chapter records (same entries, same order, same
`isDownloaded` flags) as saving it once. -/
theorem claim_C8 (bookId lang : String) (p : BatchPayload) (store : Store)
    (hwf : store.WF) :
    saveBookChaptersInBatch bookId lang p
        (saveBookChaptersInBatch bookId lang p store none).1 none
      = saveBookChaptersInBatch bookId lang p store none :=
  saveBookChaptersInBatch_idem bookId lang p store hwf

def exPayloadBoth : BatchPayload :=
  ⟨some [⟨1, 1, none, some "A", none⟩, ⟨2, 1, some "2", some "B", none⟩],
    some [⟨1, 1, some "C"⟩, ⟨3, 2, some "D"⟩]⟩

theorem claim_C8_witness :
    Store.WF exStoreA
      ∧ saveBookChaptersInBatch "genesis" "am" exPayloadBoth
          (saveBookChaptersInBatch "genesis" "am" exPayloadBoth exStoreA none).1 none
        = saveBookChaptersInBatch "genesis" "am" exPayloadBoth exStoreA none :=
  ⟨by decide, claim_C8 "genesis" "am" exPayloadBoth exStoreA (by decide)⟩

/-- C9.  `clearDownloadedDataForLanguage(lang)` reports success, keeps
exactly the entries that are neither the `core-crossrefs_<lang>` dataset nor
a record whose key ends in `-<lang>` with a stored `isDownloaded === true`
flag (so non-downloaded records of that language, audio strings, core arrays
and every other language's records survive), and reports as `clearedCount`
exactly the number of records deleted by the cursor sweep. -/
theorem claim_C9 (lang : String) (store : Store) :
    (clearDownloadedDataForLanguage lang store).2.1 = true
      ∧ (∀ e : String × StoredValue,
          e ∈ (clearDownloadedDataForLanguage lang store).1
            ↔ (e ∈ store ∧ e.1 ≠ "core-crossrefs_" ++ lang
                ∧ sweepMatch lang e.1 e.2 = false))
      ∧ (clearDownloadedDataForLanguage lang store).2.2
          = store.countP (fun e =>
              sweepMatch lang e.1 e.2 && !(e.1 = "core-crossrefs_" ++ lang)) := by
  refine ⟨rfl, ?_, ?_⟩
  · intro e
    show e ∈ (storeDelete store ("core-crossrefs_" ++ lang)).filter
        (fun e => ¬ sweepMatch lang e.1 e.2) ↔ _
    rw [List.mem_filter, mem_storeDelete]
    constructor
    · rintro ⟨⟨h1, h2⟩, h3⟩
      refine ⟨h1, h2, ?_⟩
      simpa using h3
    · rintro ⟨h1, h2, h3⟩
      refine ⟨⟨h1, h2⟩, ?_⟩
      simpa using h3
  · show (storeDelete store ("core-crossrefs_" ++ lang)).countP
        (fun e => sweepMatch lang e.1 e.2) = _
    unfold storeDelete
    rw [List.countP_filter]
    congr 1
    funext e
    simp [decide_not]

/-- C4.  Pagination terminates correctly: when the gateway returns `N` pages
of exactly `pageSize` (1000) rows followed by one shorter final page,
`fetchAllVersesForBook` issues exactly `N + 1` page requests in increasing
page order and resolves with `error = null` and the concatenation of all
returned rows in request order. -/
theorem claim_C4 {α : Type} (gw : Nat → PageResult α) (rows : Nat → List α)
    (N fuel : Nat)
    (hgw : ∀ i, i ≤ N → gw i = ⟨some (rows i), none⟩)
    (hfull : ∀ i, i < N → (rows i).length = pageSize)
    (hshort : (rows N).length < pageSize)
    (hfuel : N + 1 ≤ fuel) :
    fetchAllVersesForBook gw (fun _ => false) fuel
      = some ⟨some ((List.range (N + 1)).map rows).flatten, none, N + 1⟩ := by
  have h := fetchPages_run gw (fun _ => false)
    "Cancelled during book fetch pagination" rows (fun _ => rfl) N 0 fuel []
    (fun i _ hi => hgw i (by omega))
    (fun i _ hi => hfull i (by omega))
    (by simpa using hshort) hfuel
  rw [fetchAllVersesForBook, h]
  have hmap : (List.range (N + 1)).map (fun j => rows (0 + j))
      = (List.range (N + 1)).map rows := by
    apply List.map_congr_left
    intro j _
    rw [Nat.zero_add]
  rw [hmap]
  simp

def rowsW : Nat → List Nat := fun i => if i = 0 then List.replicate pageSize 0 else [7]

def gwW : Nat → PageResult Nat := fun i => ⟨some (rowsW i), none⟩

theorem claim_C4_witness :
    fetchAllVersesForBook gwW (fun _ => false) 2
      = some ⟨some ((List.range 2).map rowsW).flatten, none, 2⟩ :=
  claim_C4 gwW rowsW 1 2 (fun _ _ => rfl)
    (fun i hi => by
      have h0 : i = 0 := by omega
      subst h0
      simp [rowsW])
    (by simp [rowsW, pageSize])
    (by omega)

/-- C7.  Cancellation mid-pagination: for both paginated fetches, if
`onCancel()` becomes true after `k` pages have been requested, the operation
returns its "Cancelled …" error with `data = null` — the partial accumulation
is discarded — and issues exactly `k` page requests, no more. -/
theorem claim_C7 {α : Type} (gw : Nat → PageResult α) (onCancel : Nat → Bool)
    (rows : Nat → List α) (k fuel : Nat)
    (hgood : ∀ i, i < k →
      onCancel i = false ∧ gw i = ⟨some (rows i), none⟩ ∧ (rows i).length = pageSize)
    (hoc : onCancel k = true)
    (hfuel : k + 1 ≤ fuel) :
    fetchAllVersesForBook gw onCancel fuel
        = some ⟨none, some "Cancelled during book fetch pagination", k⟩
      ∧ fetchAllCrossRefs gw onCancel fuel
        = some ⟨none, some "Cancelled during cross-reference fetch", k⟩ := by
  constructor
  · have h2 := fetchPages_cancel gw onCancel
      "Cancelled during book fetch pagination" rows k 0 fuel []
      (fun i _ hi => hgood i (by omega)) (by simpa using hoc) hfuel
    rw [fetchAllVersesForBook, h2]
    simp
  · have h2 := fetchPages_cancel gw onCancel
      "Cancelled during cross-reference fetch" rows k 0 fuel []
      (fun i _ hi => hgood i (by omega)) (by simpa using hoc) hfuel
    rw [fetchAllCrossRefs, h2]
    simp

def ocW : Nat → Bool := fun i => decide (1 ≤ i)

theorem claim_C7_witness :
    fetchAllVersesForBook gwW ocW 2
        = some ⟨none, some "Cancelled during book fetch pagination", 1⟩
      ∧ fetchAllCrossRefs gwW ocW 2
        = some ⟨none, some "Cancelled during cross-reference fetch", 1⟩ :=
  claim_C7 gwW ocW rowsW 1 2
    (fun i hi => by
      have h0 : i = 0 := by omega
      subst h0
      exact ⟨rfl, rfl, by simp [rowsW]⟩)
    (by decide) (by omega)

/-! ### Concrete environments for the run-level claims -/

def bookA : Book := ⟨"gen", 2, 0⟩

def bookB : Book := ⟨"exo", 3, 1⟩

def bookC : Book := ⟨"lev", 1, 2⟩

def bookD : Book := ⟨"num", 1, 3⟩

def payloadA : BatchPayload := ⟨some [⟨1, 1, none, some "A", none⟩], none⟩

def v2S0 : V2State := ⟨false, false, [], [], 0⟩

/-- An environment where every fetch and every save succeeds and no
cancellation is ever requested. -/
def v2EnvOk : V2Env :=
  { req := fun _ => false
    crossrefFetch := fun _ => some ["r1"]
    crossrefSaveOk := fun _ => true
    bookFetch := fun _ _ => some payloadA
    bookTx := fun _ _ => none }

/-- An environment where the first book's IndexedDB transaction fails with
`QuotaExceededError` and everything else succeeds. -/
def v2EnvQuota : V2Env :=
  { req := fun _ => false
    crossrefFetch := fun _ => some ["r1"]
    crossrefSaveOk := fun _ => true
    bookFetch := fun _ _ => some payloadA
    bookTx := fun _ bid => if bid = "gen" then some "QuotaExceededError" else none }

/-- An environment where the cross-reference fetch fails and every book
fetch and save succeeds. -/
def v2EnvRefFail : V2Env :=
  { req := fun _ => false
    crossrefFetch := fun _ => none
    crossrefSaveOk := fun _ => true
    bookFetch := fun _ _ => some payloadA
    bookTx := fun _ _ => none }

/-- An environment where cancellation is requested after clock tick 11: the
first concurrency batch completes, the second is never started. -/
def v2EnvCancel : V2Env :=
  { req := fun t => decide (11 ≤ t)
    crossrefFetch := fun _ => some ["r1"]
    crossrefSaveOk := fun _ => true
    bookFetch := fun _ _ => some payloadA
    bookTx := fun _ _ => none }

/-- A V1 environment where cancellation is requested right after the
cross-reference phase (clock tick 2), before any book is processed. -/
def v1EnvCancelEarly : V1Env :=
  { req := fun t => decide (2 ≤ t)
    clientOk := true
    confirmOk := true
    crossrefFetch := some ["r1"]
    crossrefSaveOk := true
    bookFetch := fun _ => some [⟨1, 1, none, some "A", none⟩]
    bookSave := fun _ => ⟨1, none⟩ }

/-- A V1 starting state whose per-language book ledger already holds both
books of the run, with `downloadedLanguages` still empty. -/
def v1S0 : V1State := ⟨false, false, [("am", ["gen", "exo"])], [], [], 0⟩

/-- A V1 environment whose every merge-save fails with `QuotaExceededError`. -/
def v1EnvQuota : V1Env :=
  { req := fun _ => false
    clientOk := true
    confirmOk := true
    crossrefFetch := some ["r1"]
    crossrefSaveOk := true
    bookFetch := fun _ => some [⟨1, 1, none, some "A", none⟩]
    bookSave := fun _ => ⟨1, some (SaveError.tx "QuotaExceededError")⟩ }

/-- A mid-run V1 context: downloading, not cancelled, nothing ledgered. -/
def v1CtxQ : V1Ctx := ⟨⟨true, false, [], [], [], 0⟩, true, 0, [], []⟩

/-- C2, counterexample: the V1 `start` marks a language as downloaded in a
*cancelled* run.  With both books already in `downloadedBooksByLanguage`, a
run whose cancellation arrives right after the cross-reference phase ends
with the `cancelled` status message and yet appends `"am"` to
`downloadedLanguages`: `isLangComplete` is computed from
`allBooksDownloaded && crossrefsSuccess` alone, ignoring `wasCancelled`. -/
theorem claim_C2_counterexample :
    (v1start v1EnvCancelEarly [bookA, bookB] "am" v1S0).2 = some V1Message.cancelled
      ∧ "am" ∉ v1S0.downloadedLanguages
      ∧ "am" ∈ (v1start v1EnvCancelEarly [bookA, bookB] "am" v1S0).1.st.downloadedLanguages := by
  decide

/-- C2 (amended).  The V2 ledger is sound: a resource key newly present in
`downloadedResources` after `start` belongs to a processed language and is
either that language's `-ref` key with the cross-reference phase having
succeeded, or its `-bible`/`-commentary` key with every targeted book
fetched without error and durably merge-saved; moreover a fully successful
uncancelled `start(['am-bible'])` marks `am-bible`, and a run cancelled
after the first concurrency batch leaves it unmarked.  (The V1 variant
violates the cancellation half of the original claim: see the
counterexample.) -/
theorem claim_C2 (env : V2Env) (booksInfo : List Book) (resources : List String)
    (s0 : V2State) (k : String)
    (hguard1 : s0.isDownloading = false) (hguard2 : resources.isEmpty = false)
    (hnotin : k ∉ s0.downloadedResources)
    (hin : k ∈ (v2start env booksInfo resources true s0).st.downloadedResources) :
    (∃ lang ∈ ["am", "en"],
      (k = lang ++ "-ref" ∧ refSuccess env lang)
        ∨ ((k = lang ++ "-bible" ∨ k = lang ++ "-commentary")
            ∧ ∀ b ∈ booksToDownload booksInfo, bookSuccess env lang b.id))
      ∧ "am-bible" ∈ (v2start v2EnvOk [bookA] ["am-bible"] true v2S0).st.downloadedResources
      ∧ "am-bible" ∉ (v2start v2EnvCancel [bookA, bookB, bookC, bookD] ["am-bible"]
            true v2S0).st.downloadedResources := by
  refine ⟨?_, by decide, by decide⟩
  obtain ⟨lang, hmem, hprop⟩ :=
    v2start_sound env booksInfo resources s0 k hguard1 hguard2 hnotin hin
  exact ⟨lang, (List.mem_filter.mp hmem).1, hprop⟩

theorem claim_C2_witness :
    (∃ lang ∈ ["am", "en"],
      ("am-bible" = lang ++ "-ref" ∧ refSuccess v2EnvOk lang)
        ∨ (("am-bible" = lang ++ "-bible" ∨ "am-bible" = lang ++ "-commentary")
            ∧ ∀ b ∈ booksToDownload [bookA], bookSuccess v2EnvOk lang b.id))
      ∧ "am-bible" ∈ (v2start v2EnvOk [bookA] ["am-bible"] true v2S0).st.downloadedResources
      ∧ "am-bible" ∉ (v2start v2EnvCancel [bookA, bookB, bookC, bookD] ["am-bible"]
            true v2S0).st.downloadedResources :=
  claim_C2 v2EnvOk [bookA] ["am-bible"] v2S0 "am-bible" rfl rfl (by decide) (by decide)

/-- C5, counterexample: the V2 `_downloadAndProcessBook` has no quota
special case.  With the first book's transaction failing with
`QuotaExceededError` (so its merge-save reports an error), the run still
fetches every remaining book — including `num`, which sits in the *second*
concurrency batch, started after the failure — instead of escalating to a
full-run cancellation. -/
theorem claim_C5_counterexample :
    v2EnvQuota.bookTx "am" "gen" = some "QuotaExceededError"
      ∧ (saveBookChaptersInBatch "gen" "am" payloadA [] (v2EnvQuota.bookTx "am" "gen")).2.error
          ≠ none
      ∧ (v2start v2EnvQuota [bookA, bookB, bookC, bookD] ["am-bible"] true v2S0).trace
          = [("am", "gen"), ("am", "exo"), ("am", "lev"), ("am", "num")] := by
  decide

/-- C5 (amended).  The quota escalation exists only in the V1
`_downloadAndProcessBook`: there, a merge-save failing with
`QuotaExceededError` sets the shared cancellation flag, the failing book is
the last fetch of the run, and no later batch issues any fetch.  (The V2
variant issues fetches for books started after the failure: see the
counterexample.) -/
theorem claim_C5 (env : V1Env) (language : String) (b : Book) (c : V1Ctx)
    (n : Nat) (rows : List VerseEntry) (restBatches : List (List Book))
    (hreq : ∀ t, env.req t = false) (hflag : c.st.cancelFlag = false)
    (hskip : ((alistGet c.st.downloadedBooksByLanguage language).getD []).contains b.id
      = false)
    (hfetch : env.bookFetch b.id = some rows) (hrows : rows.isEmpty = false)
    (hsave : env.bookSave b.id = ⟨n, some (SaveError.tx "QuotaExceededError")⟩) :
    (v1ProcessBook env language b c).st.cancelFlag = true
      ∧ (v1ProcessBatches env language restBatches (v1ProcessBook env language b c)).trace
        = c.trace ++ [b.id] :=
  ⟨(v1ProcessBook_quota env language b c n rows hreq hflag hskip hfetch hrows hsave).1,
    v1_quota_escalation env language b c n rows restBatches hreq hflag hskip hfetch
      hrows hsave⟩

theorem claim_C5_witness :
    (v1ProcessBook v1EnvQuota "am" bookA v1CtxQ).st.cancelFlag = true
      ∧ (v1ProcessBatches v1EnvQuota "am" [[bookB]]
          (v1ProcessBook v1EnvQuota "am" bookA v1CtxQ)).trace
        = v1CtxQ.trace ++ [bookA.id] :=
  claim_C5 v1EnvQuota "am" bookA v1CtxQ 1 [⟨1, 1, none, some "A", none⟩] [[bookB]]
    (fun _ => rfl) rfl rfl rfl rfl rfl

/-- C6, counterexample: the success tracker is run-global, not scoped per
resource.  With `['am-ref', 'am-bible']` requested, the cross-reference
fetch failing, and every book of `am-bible` fetching and saving
successfully, `start` still does not mark `am-bible`: the failure of the
*other* resource cleared the shared `overallSuccessTracker` that guards the
books-phase marking. -/
theorem claim_C6_counterexample :
    v2EnvRefFail.crossrefFetch "am" = none
      ∧ v2EnvRefFail.bookFetch "am" "gen" = some payloadA
      ∧ payloadEmpty payloadA = false
      ∧ v2EnvRefFail.bookTx "am" "gen" = none
      ∧ "am-bible"
          ∉ (v2start v2EnvRefFail [bookA] ["am-ref", "am-bible"] true
              v2S0).st.downloadedResources := by
  decide

/-- C6 (amended).  A failed attempt never rolls back previously-true ledger
flags (`downloadedResources` only grows), but the marking guard is the
run-global tracker, not a per-resource one: whenever the cross-reference
fetch of a run that requests `['am-ref', 'am-bible']` fails, `am-bible` is
left unmarked even if every one of its books downloads successfully. -/
theorem claim_C6 (env : V2Env) (booksInfo : List Book) (s0 : V2State)
    (hreq : ∀ t, env.req t = false)
    (hfetch : env.crossrefFetch "am" = none)
    (hguard1 : s0.isDownloading = false)
    (hnb : "am-bible" ∉ s0.downloadedResources) :
    (∀ k ∈ s0.downloadedResources, ∀ resources clientOk,
        k ∈ (v2start env booksInfo resources clientOk s0).st.downloadedResources)
      ∧ "am-bible"
          ∉ (v2start env booksInfo ["am-ref", "am-bible"] true
              s0).st.downloadedResources := by
  constructor
  · intro k hk resources clientOk
    exact v2start_res_mono env booksInfo resources clientOk s0 k hk
  · have hstep : v2start env booksInfo ["am-ref", "am-bible"] true s0
        = (let cF := v2ProcessLangs env ["am-ref", "am-bible"] booksInfo ["am"]
            ⟨{ s0 with isDownloading := true, cancelFlag := false }, true, 0, []⟩;
          { cF with st := { cF.st with isDownloading := false, cancelFlag := false } }) := by
      unfold v2start
      rw [hguard1]
      rfl
    have hstep2 : v2ProcessLangs env ["am-ref", "am-bible"] booksInfo ["am"]
          ⟨{ s0 with isDownloading := true, cancelFlag := false }, true, 0, []⟩
        = v2ProcessLang env ["am-ref", "am-bible"] booksInfo "am"
            (pollV2 env ⟨{ s0 with isDownloading := true, cancelFlag := false }, true, 0, []⟩).1 := by
      unfold v2ProcessLangs pollV2
      simp [hreq]
      rfl
    have hflag1 : (pollV2 env
          ⟨{ s0 with isDownloading := true, cancelFlag := false }, true, 0, []⟩).1.st.cancelFlag
        = false := by
      unfold pollV2
      simp [hreq]
    have href := v2RefPhase_fetchFail env "am"
      (pollV2 env ⟨{ s0 with isDownloading := true, cancelFlag := false }, true, 0, []⟩).1
      hreq hflag1 hfetch
    have hbooks := v2BooksPhase_res_of_trkFalse env "am" booksInfo
      (taskFlag ["am-ref", "am-bible"] "am" "bible")
      (taskFlag ["am-ref", "am-bible"] "am" "commentary")
      (v2RefPhase env "am" true
        (pollV2 env ⟨{ s0 with isDownloading := true, cancelFlag := false }, true, 0, []⟩).1)
      href.1
    have hfin : (v2start env booksInfo ["am-ref", "am-bible"] true
          s0).st.downloadedResources = s0.downloadedResources := by
      rw [hstep]
      show (v2ProcessLangs env ["am-ref", "am-bible"] booksInfo ["am"]
          ⟨{ s0 with isDownloading := true, cancelFlag := false }, true, 0,
            []⟩).st.downloadedResources = s0.downloadedResources
      rw [hstep2]
      show (v2BooksPhase env "am" booksInfo
          (taskFlag ["am-ref", "am-bible"] "am" "bible")
          (taskFlag ["am-ref", "am-bible"] "am" "commentary")
          (v2RefPhase env "am" (taskFlag ["am-ref", "am-bible"] "am" "ref")
            (pollV2 env ⟨{ s0 with isDownloading := true, cancelFlag := false }, true, 0,
              []⟩).1)).st.downloadedResources = s0.downloadedResources
      have hfR : taskFlag ["am-ref", "am-bible"] "am" "ref" = true := by decide
      rw [hfR, hbooks, href.2]
      rfl
    rw [hfin]
    exact hnb

theorem claim_C6_witness :
    (∀ k ∈ v2S0.downloadedResources, ∀ resources clientOk,
        k ∈ (v2start v2EnvRefFail [bookA] resources clientOk v2S0).st.downloadedResources)
      ∧ "am-bible"
          ∉ (v2start v2EnvRefFail [bookA] ["am-ref", "am-bible"] true
              v2S0).st.downloadedResources :=
  claim_C6 v2EnvRefFail [bookA] v2S0 (fun _ => rfl) rfl rfl (by decide)

/-- C10.  The `finally` blocks: after any actual run of either `start` —
completed, failed, or cancelled — both `isDownloading` and
`cancelDownloadFlag` are false again, so a subsequent `start` is neither
blocked by a stale `isDownloading` nor poisoned by a stale cancellation
flag. -/
theorem claim_C10 (env2 : V2Env) (books2 : List Book) (resources : List String)
    (s2 : V2State) (env1 : V1Env) (books1 : List Book) (language : String)
    (s1 : V1State)
    (h1 : s2.isDownloading = false) (h2 : resources.isEmpty = false)
    (h3 : s1.isDownloading = false) (h4 : env1.clientOk = true)
    (h5 : books1.isEmpty = false) (h6 : env1.confirmOk = true) :
    ((v2start env2 books2 resources true s2).st.isDownloading = false
      ∧ (v2start env2 books2 resources true s2).st.cancelFlag = false)
      ∧ ((v1start env1 books1 language s1).1.st.isDownloading = false
        ∧ (v1start env1 books1 language s1).1.st.cancelFlag = false) :=
  ⟨v2start_flags env2 books2 resources s2 h1 h2,
    v1start_flags env1 books1 language s1 h3 h4 h5 h6⟩

theorem claim_C10_witness :
    ((v2start v2EnvCancel [bookA, bookB, bookC, bookD] ["am-bible"] true
        v2S0).st.isDownloading = false
      ∧ (v2start v2EnvCancel [bookA, bookB, bookC, bookD] ["am-bible"] true
          v2S0).st.cancelFlag = false)
      ∧ ((v1start v1EnvCancelEarly [bookA, bookB] "am" v1S0).1.st.isDownloading = false
        ∧ (v1start v1EnvCancelEarly [bookA, bookB] "am" v1S0).1.st.cancelFlag = false) :=
  claim_C10 v2EnvCancel [bookA, bookB, bookC, bookD] ["am-bible"] v2S0
    v1EnvCancelEarly [bookA, bookB] "am" v1S0 rfl rfl rfl rfl rfl rfl

end DSE
